import Mathlib

/-!
Verification development for the `jira-ops` repository (`jira-status.go` and
its sibling source files).  The Go program is shallowly embedded: pure string
processing is translated to functions on `List Char`, and every procedure that
talks to the Jira REST API is translated to a function that takes the remote
calls' outcomes as explicit oracle arguments and returns, next to its
`Except`-style result, the list of remote calls it issued, in order.
-/

namespace JiraStatus

/-! ## The thumbnail rewriter

`makeAllImagesThumbnails` in `jira-status.go` applies
`imagesRegexp = regexp.MustCompile("![^!\n]+!")` with `ReplaceAllStringFunc`.
A match is a `'!'`, then one or more characters that are neither `'!'` nor
`'\n'`, then a `'!'`.  The scan below reproduces the regexp engine's
behaviour for this pattern: left to right, at each `'!'` the (unique possible)
match is the maximal run of name characters followed by a closing `'!'`;
matches are non-overlapping and scanning resumes after the closing `'!'`. -/

/-- Character class `[^!\n]` of the Go regexp: anything but `'!'` and `'\n'`. -/
def isNameChar (c : Char) : Bool := !(c = '!' || c = '\n')

/-- Model of Go `strings.Split` with a single-character separator. -/
def goSplit (sep : Char) : List Char → List (List Char)
  | [] => [[]]
  | c :: r =>
    if c = sep then [] :: goSplit sep r
    else
      match goSplit sep r with
      | p :: ps => (c :: p) :: ps
      | [] => [[c]]

/-- The replacement callback of `makeAllImagesThumbnails`: split the match on
`'|'`; if there are exactly two pieces keep the match, otherwise strip every
`'!'` and produce `!<nameOnly>|thumbnail!` (Go lines 120-129). -/
def makeMatchThumbnail (m : List Char) : List Char :=
  let pipes := goSplit '|' m
  if pipes.length = 2 then m
  else '!' :: (m.filter (fun c => c ≠ '!') ++ ('|' :: "thumbnail".data)) ++ ['!']

/-- Fueled scanner for `imagesRegexp.ReplaceAllStringFunc`.  At a `'!'` the
maximal run of `[^!\n]` characters is `rest.takeWhile isNameChar`; a match
needs that run nonempty and a closing `'!'` right after it.  The fuel only
makes the recursion structural; `fuel = s.length` always suffices. -/
def maitGo : Nat → List Char → List Char
  | 0, s => s
  | _, [] => []
  | fuel + 1, c :: rest =>
    if c = '!' ∧ (rest.dropWhile isNameChar).head? = some '!' ∧ rest.takeWhile isNameChar ≠ [] then
      makeMatchThumbnail ('!' :: (rest.takeWhile isNameChar ++ ['!']))
        ++ maitGo fuel (rest.dropWhile isNameChar).tail
    else c :: maitGo fuel rest

/-- `makeAllImagesThumbnails` from `jira-status.go` lines 119-132 (the string
is represented by its character list; the Go function's error result is the
constant `nil` and is omitted). -/
def makeAllImagesThumbnails (s : List Char) : List Char := maitGo s.length s

/-- A piece of the scanner's decomposition of the input: either a character
outside every match, or the name of a `!name!` match. -/
inductive Chunk where
  | lit : Char → Chunk
  | img : List Char → Chunk
deriving DecidableEq, Repr

/-- Instrumented version of the same scan, returning the decomposition of the
input into non-match characters and match names. -/
def chunksGo : Nat → List Char → List Chunk
  | 0, _ => []
  | _, [] => []
  | fuel + 1, c :: rest =>
    if c = '!' ∧ (rest.dropWhile isNameChar).head? = some '!' ∧ rest.takeWhile isNameChar ≠ [] then
      .img (rest.takeWhile isNameChar) :: chunksGo fuel (rest.dropWhile isNameChar).tail
    else .lit c :: chunksGo fuel rest

/-- The scanner's decomposition of a string. -/
def chunks (s : List Char) : List Chunk := chunksGo s.length s

/-- Render a chunk back to the original text. -/
def renderChunkOrig : Chunk → List Char
  | .lit c => [c]
  | .img name => '!' :: (name ++ ['!'])

/-- Render a chunk to the rewritten text. -/
def renderChunkNew : Chunk → List Char
  | .lit c => [c]
  | .img name => makeMatchThumbnail ('!' :: (name ++ ['!']))

/-- Render a chunk list back to the original text. -/
def renderOrig (cs : List Chunk) : List Char := (cs.map renderChunkOrig).flatten

/-- Render a chunk list to the rewritten text. -/
def renderNew (cs : List Chunk) : List Char := (cs.map renderChunkNew).flatten

/-! ## Data model for the Jira API operations

Each remote procedure of the Go program is embedded as a function whose
oracle arguments give the outcome of each remote call (`Except String _`
results of search / get / update / delete / transition calls).  The embedded
function returns the Go function's result together with the ordered list of
remote calls it issued. -/

/-- A workflow transition (`jira.Transition`), with the destination status
name `To.Name` flattened into `toName`. -/
structure Transition where
  id : String
  toName : String
deriving DecidableEq, Repr

/-- A fix version attached to an issue (`jira.FixVersion`); only the ID is
consulted by the program. -/
structure FixVersion where
  id : String
deriving DecidableEq, Repr

/-- An issue comment (`jira.Comment`). -/
structure Comment where
  id : String
  body : String
deriving DecidableEq, Repr

/-- One side of an issue link: the linked issue's key and its type name. -/
structure LinkEnd where
  key : String
  typeName : String
deriving DecidableEq, Repr

/-- An issue link (`jira.IssueLink`): its own ID plus the optional inward and
outward issues. -/
structure IssueLink where
  id : String
  inward : Option LinkEnd
  outward : Option LinkEnd
deriving DecidableEq, Repr

/-- An attachment (`jira.Attachment`). -/
structure Attachment where
  id : String
  filename : String
deriving DecidableEq, Repr

/-- The parts of `jira.Issue` that the program reads. -/
structure Issue where
  id : String
  key : String
  summary : String
  description : String
  comments : List Comment
  issueLinks : List IssueLink
  fixVersions : List FixVersion
  attachments : List Attachment
deriving DecidableEq, Repr

/-- A project version (`jira.Version`). -/
structure Version where
  id : String
  name : String
  archived : Bool
  released : Bool
deriving DecidableEq, Repr

/-- A project (`jira.Project`); only its version list is consulted. -/
structure Project where
  versions : List Version
deriving DecidableEq, Repr

/-- The update payload the program sends to `jc.Issue.Update`: the issue key
plus exactly the fields the payload sets (`none` = field absent from the
payload, hence not modified by the update). -/
structure UpdatePayload where
  key : String
  description : Option String
  fixVersions : Option (List String)
deriving DecidableEq, Repr

/-- An epic returned by the epic search in `findEpic`. -/
structure EpicIssue where
  key : String
  summary : String
deriving DecidableEq, Repr

/-- A remote API call issued by one of the operations. -/
inductive Call where
  | search
  | getIssue (key : String)
  | updateIssue (p : UpdatePayload)
  | updateComment (issueKey commentId body : String)
  | getProject (key : String)
  | getTransitions (issueId : String)
  | doTransition (issueId transitionId : String)
  | searchEpics
  | getLinkTypes
  | deleteLink (linkId : String)
  | addLink (inwardKey outwardKey typeName : String)
  | download (name : String)
deriving DecidableEq, Repr

/-- `true` exactly on successful remote-call outcomes. -/
def isOkE {ε α : Type} : Except ε α → Bool
  | .ok _ => true
  | .error _ => false

/-- Equality of remote-call outcomes is decidable. -/
def exceptDecEq {ε α : Type} [DecidableEq ε] [DecidableEq α] :
    (a b : Except ε α) → Decidable (a = b)
  | .error x, .error y =>
    if h : x = y then .isTrue (by rw [h]) else .isFalse (fun hc => h (by injection hc))
  | .ok x, .ok y =>
    if h : x = y then .isTrue (by rw [h]) else .isFalse (fun hc => h (by injection hc))
  | .error _, .ok _ => .isFalse (fun hc => Except.noConfusion hc)
  | .ok _, .error _ => .isFalse (fun hc => Except.noConfusion hc)

instance {ε α : Type} [DecidableEq ε] [DecidableEq α] : DecidableEq (Except ε α) :=
  exceptDecEq

/-- The fail-stop property of a traced run: every issued call except possibly
the last one succeeded (so a failed call is never retried and no further call
follows it), and a successful overall result means every issued call
succeeded (so a failed call forces an error result). -/
@[reducible] def failStop {β : Type} (ok : Call → Bool) (r : Except String β × List Call) : Prop :=
  (∀ c ∈ r.2.dropLast, ok c = true) ∧ (isOkE r.1 = true → ∀ c ∈ r.2, ok c = true)

/-- `makeAllImagesThumbnails` on `String` values, as used by `upkeep`. -/
def maitStr (s : String) : String := String.mk (makeAllImagesThumbnails s.data)

/-! ### changeStatus / changeIssueStatus (jira-status.go lines 431-467) -/

/-- The transition loop of `changeIssueStatus`: the first transition whose
destination name equals `desired` is performed; when none matches the function
returns the `missing transition` error without any `DoTransition` call. -/
def changeIssueStatusLoop (doT : String → String → Except String Unit)
    (iid desired : String) : List Transition → Except String Unit × List Call
  | [] => (.error "missing transition", [])
  | t :: ts =>
    if t.toName = desired then
      match doT iid t.id with
      | .ok _ => (.ok (), [.doTransition iid t.id])
      | .error e => (.error ("error updating status: " ++ e), [.doTransition iid t.id])
    else changeIssueStatusLoop doT iid desired ts

/-- `changeIssueStatus`: fetch the available transitions, then scan them. -/
def changeIssueStatus (getT : String → Except String (List Transition))
    (doT : String → String → Except String Unit) (iid desired : String) :
    Except String Unit × List Call :=
  match getT iid with
  | .error e => (.error e, [.getTransitions iid])
  | .ok ts =>
    let r := changeIssueStatusLoop doT iid desired ts
    (r.1, .getTransitions iid :: r.2)

/-- The issue loop of `changeStatus`. -/
def changeStatusLoop (getT : String → Except String (List Transition))
    (doT : String → String → Except String Unit) (desired : String) :
    List Issue → Except String Unit × List Call
  | [] => (.ok (), [])
  | i :: is =>
    match changeIssueStatus getT doT i.id desired with
    | (.error e, calls) => (.error e, calls)
    | (.ok _, calls) =>
      let r := changeStatusLoop getT doT desired is
      (r.1, calls ++ r.2)

/-- `changeStatus`: search, then transition each result. -/
def changeStatus (searchR : Except String (List Issue))
    (getT : String → Except String (List Transition))
    (doT : String → String → Except String Unit) (desired : String) :
    Except String Unit × List Call :=
  match searchR with
  | .error e => (.error ("error getting issues: " ++ e), [.search])
  | .ok issues =>
    let r := changeStatusLoop getT doT desired issues
    (r.1, .search :: r.2)

/-- Per-operation call success, assembled from the oracles of `changeStatus`. -/
def changeStatusCallOK (searchR : Except String (List Issue))
    (getT : String → Except String (List Transition))
    (doT : String → String → Except String Unit) : Call → Bool
  | .search => isOkE searchR
  | .getTransitions i => isOkE (getT i)
  | .doTransition i t => isOkE (doT i t)
  | _ => true

/-! ### findIssue (jira-status.go lines 469-480) -/

/-- `findIssue`: a search that must produce exactly one issue. -/
def findIssue (searchR : Except String (List Issue)) : Except String Issue × List Call :=
  match searchR with
  | .error e => (.error ("error getting issues: " ++ e), [.search])
  | .ok issues =>
    if h : issues.length ≠ 1 then (.error "unable to find issue", [.search])
    else (.ok (issues.get ⟨0, by omega⟩), [.search])

/-! ### findEpic / linkEpics (epic-linking source files) -/

/-- Digit run of Go's `strconv.Atoi` after the optional sign: at least one
decimal digit, nothing else, and the signed value must fit in `int64`
(out-of-range input is an error, like `strconv.ErrRange`). -/
def goAtoiCore (sign : Int) (digits : List Char) : Option Int :=
  if digits = [] then none
  else if digits.all Char.isDigit then
    let v : Int := sign *
      (digits.foldl (fun a c => a * 10 + ((c.toNat : Int) - ('0'.toNat : Int))) 0)
    if -(2 ^ 63) ≤ v ∧ v ≤ 2 ^ 63 - 1 then some v else none
  else none

/-- Model of Go's `strconv.Atoi`: optional leading `+`/`-` sign, then decimal
digits. -/
def goAtoi : List Char → Option Int
  | [] => none
  | '+' :: r => goAtoiCore 1 r
  | '-' :: r => goAtoiCore (-1) r
  | s => goAtoiCore 1 s

/-- `findEpic`: a numeric argument is formatted as `<project>-<n>` directly,
with no remote search; otherwise epics are searched by summary and the first
result's key is returned, with an error when there is none.  The Go code calls
`log.Fatalf` when the search itself fails; that process exit is modelled as an
error result. -/
def findEpic (project epic : String)
    (searchR : Except String (List EpicIssue)) : Except String String × List Call :=
  match goAtoi epic.data with
  | some n => (.ok (project ++ "-" ++ toString n), [])
  | none =>
    match searchR with
    | .error e => (.error ("fatal: error getting issues: " ++ e), [.searchEpics])
    | .ok epics =>
      match epics with
      | e :: _ => (.ok e.key, [.searchEpics])
      | [] => (.error ("unable to find Epic matching '" ++ epic ++ "'"), [.searchEpics])

/-- One side of the link inspection inside `linkEpics`: a link end equal to
the desired epic marks the issue as linked; otherwise an end of type `Epic`
is deleted. -/
def processEnd (delO : String → Except String Unit) (desired linkId : String)
    (e : Option LinkEnd) (linked : Bool) : Except String Bool × List Call :=
  match e with
  | none => (.ok linked, [])
  | some le =>
    if le.key = desired then (.ok true, [])
    else if le.typeName = "Epic" then
      match delO linkId with
      | .ok _ => (.ok linked, [.deleteLink linkId])
      | .error err => (.error ("error: " ++ err), [.deleteLink linkId])
    else (.ok linked, [])

/-- The link loop of `linkEpics`: inward end then outward end of each link. -/
def processLinks (delO : String → Except String Unit) (desired : String) :
    List IssueLink → Bool → Except String Bool × List Call
  | [], linked => (.ok linked, [])
  | l :: ls, linked =>
    match processEnd delO desired l.id l.inward linked with
    | (.error e, calls1) => (.error e, calls1)
    | (.ok linked1, calls1) =>
      match processEnd delO desired l.id l.outward linked1 with
      | (.error e, calls2) => (.error e, calls1 ++ calls2)
      | (.ok linked2, calls2) =>
        let r := processLinks delO desired ls linked2
        (r.1, calls1 ++ calls2 ++ r.2)

/-- Per-issue body of `linkEpics`: get the issue, inspect its links, and add
a `Relates` link to the epic when none of the links references it. -/
def linkEpicsIssue (getI : String → Except String Issue)
    (delO : String → Except String Unit)
    (addO : String → String → Except String Unit)
    (project desired issueNumber : String) : Except String Unit × List Call :=
  let issueKey := project ++ "-" ++ issueNumber
  match getI issueKey with
  | .error e => (.error ("error getting issue: " ++ e), [.getIssue issueKey])
  | .ok issue =>
    match processLinks delO desired issue.issueLinks false with
    | (.error e, calls) => (.error e, .getIssue issueKey :: calls)
    | (.ok linked, calls) =>
      if linked then (.ok (), .getIssue issueKey :: calls)
      else
        match addO desired issueKey with
        | .ok _ =>
          (.ok (), .getIssue issueKey :: (calls ++ [.addLink desired issueKey "Relates"]))
        | .error e =>
          (.error ("error: " ++ e),
            .getIssue issueKey :: (calls ++ [.addLink desired issueKey "Relates"]))

/-- The issue loop of `linkEpics`. -/
def linkEpicsLoop (getI : String → Except String Issue)
    (delO : String → Except String Unit)
    (addO : String → String → Except String Unit)
    (project desired : String) : List String → Except String Unit × List Call
  | [] => (.ok (), [])
  | n :: ns =>
    match linkEpicsIssue getI delO addO project desired n with
    | (.error e, calls) => (.error e, calls)
    | (.ok _, calls) =>
      let r := linkEpicsLoop getI delO addO project desired ns
      (r.1, calls ++ r.2)

/-- `linkEpics`: find the epic, list the issue link types — the Go code
discards this call's error (`types, _, _ := jc.IssueLinkType.GetList()`) and
continues regardless of its outcome — then process each issue number. -/
def linkEpics (epicSearch : Except String (List EpicIssue))
    (getList : Except String (List String))
    (getI : String → Except String Issue)
    (delO : String → Except String Unit)
    (addO : String → String → Except String Unit)
    (project epicArg : String) (issueNumbers : List String) :
    Except String Unit × List Call :=
  match findEpic project epicArg epicSearch with
  | (.error e, calls) => (.error e, calls)
  | (.ok desired, calls) =>
    let r := linkEpicsLoop getI delO addO project desired issueNumbers
    (r.1, calls ++ [.getLinkTypes] ++ r.2)

/-- Per-operation call success for `linkEpics`. -/
def linkEpicsCallOK (epicSearch : Except String (List EpicIssue))
    (getList : Except String (List String))
    (getI : String → Except String Issue)
    (delO : String → Except String Unit)
    (addO : String → String → Except String Unit) : Call → Bool
  | .searchEpics => isOkE epicSearch
  | .getLinkTypes => isOkE getList
  | .getIssue k => isOkE (getI k)
  | .deleteLink i => isOkE (delO i)
  | .addLink a b _ => isOkE (addO a b)
  | _ => true

/-- Call success for `linkEpics` with the link-type listing exempted: the Go
code deliberately discards that call's error, so the amended fail-stop
property does not constrain it. -/
def linkEpicsCallOKAmended (epicSearch : Except String (List EpicIssue))
    (getI : String → Except String Issue)
    (delO : String → Except String Unit)
    (addO : String → String → Except String Unit) : Call → Bool
  | .searchEpics => isOkE epicSearch
  | .getIssue k => isOkE (getI k)
  | .deleteLink i => isOkE (delO i)
  | .addLink a b _ => isOkE (addO a b)
  | _ => true

/-- Spec-side predicate: a link end that `linkEpics` deletes — present, of
type `Epic`, and keyed differently from the desired epic. -/
def endQualifiesDelete (desired : String) : Option LinkEnd → Bool
  | none => false
  | some le => decide (le.key ≠ desired) && (le.typeName == "Epic")

/-- Spec-side list of delete calls `linkEpics` issues for a link list. -/
def epicDeleteCalls (desired : String) (links : List IssueLink) : List Call :=
  (links.map (fun l =>
    (if endQualifiesDelete desired l.inward then [Call.deleteLink l.id] else [])
      ++ (if endQualifiesDelete desired l.outward then [Call.deleteLink l.id] else []))).flatten

/-- Spec-side predicate: a link that already references the desired epic on
either side. -/
def refersToDesired (desired : String) (l : IssueLink) : Bool :=
  (match l.inward with | some le => le.key == desired | none => false)
    || (match l.outward with | some le => le.key == desired | none => false)

/-! ### findVersion / reversion (jira-status.go lines 134-205) -/

/-- `startsWithL s sub`: the list `s` starts with `sub`. -/
def startsWithL : List Char → List Char → Bool
  | _, [] => true
  | [], _ :: _ => false
  | c :: s, d :: t => c = d && startsWithL s t

/-- Model of Go `strings.Contains`. -/
def containsL : List Char → List Char → Bool
  | [], sub => startsWithL [] sub
  | c :: r, sub => startsWithL (c :: r) sub || containsL r sub

/-- `findVersion`: get the project, keep the unarchived unreleased versions
whose name contains the search string, and return the first; error when there
is none. -/
def findVersion (getProject : String → Except String Project)
    (projectKey searchStr : String) : Except String Version × List Call :=
  match getProject projectKey with
  | .error e => (.error e, [.getProject projectKey])
  | .ok project =>
    let found := project.versions.filter
      (fun v => !v.archived && !v.released && containsL v.name.data searchStr.data)
    match found with
    | [] => (.error ("no such version in project: " ++ projectKey ++ " / " ++ searchStr),
        [.getProject projectKey])
    | m :: _ => (.ok m, [.getProject projectKey])

/-- The fix-version scan of `reversion`: `necessary` stays true unless some
existing fix version has the target version's ID. -/
def necessaryLoop (vid : String) : List FixVersion → Bool
  | [] => true
  | fv :: rest => if fv.id = vid then false else necessaryLoop vid rest

/-- Per-issue body of `reversion`: get the issue and, when the target version
is not already among its fix versions, send one update whose payload sets only
the fix-version list. -/
def reversionIssue (getI : String → Except String Issue)
    (updI : UpdatePayload → Except String Unit)
    (project vid : String) (issueNumber : String) : Except String Unit × List Call :=
  let issueKey := project ++ "-" ++ issueNumber
  match getI issueKey with
  | .error e => (.error ("error getting issue: " ++ e), [.getIssue issueKey])
  | .ok issue =>
    if necessaryLoop vid issue.fixVersions then
      let update : UpdatePayload := ⟨issue.key, none, some [vid]⟩
      match updI update with
      | .ok _ => (.ok (), [.getIssue issueKey, .updateIssue update])
      | .error e => (.error ("error updating description: " ++ e),
          [.getIssue issueKey, .updateIssue update])
    else (.ok (), [.getIssue issueKey])

/-- The issue loop of `reversion`. -/
def reversionLoop (getI : String → Except String Issue)
    (updI : UpdatePayload → Except String Unit)
    (project vid : String) : List String → Except String Unit × List Call
  | [] => (.ok (), [])
  | n :: ns =>
    match reversionIssue getI updI project vid n with
    | (.error e, calls) => (.error e, calls)
    | (.ok _, calls) =>
      let r := reversionLoop getI updI project vid ns
      (r.1, calls ++ r.2)

/-- `reversion`: find the version, then update each issue from the argument
list. -/
def reversion (getProject : String → Except String Project)
    (getI : String → Except String Issue)
    (updI : UpdatePayload → Except String Unit)
    (projectKey versionSearch : String) (args : List String) :
    Except String Unit × List Call :=
  match findVersion getProject projectKey versionSearch with
  | (.error e, calls) => (.error e, calls)
  | (.ok version, calls) =>
    let r := reversionLoop getI updI projectKey version.id args
    (r.1, calls ++ r.2)

/-- Per-operation call success for `reversion`. -/
def reversionCallOK (getProject : String → Except String Project)
    (getI : String → Except String Issue)
    (updI : UpdatePayload → Except String Unit) : Call → Bool
  | .getProject k => isOkE (getProject k)
  | .getIssue k => isOkE (getI k)
  | .updateIssue p => isOkE (updI p)
  | _ => true

/-! ### upkeep (jira-status.go lines 364-429) -/

/-- The comment loop of `upkeep`: rewrite each comment body and update the
comments that changed. -/
def upkeepComments (updC : String → String → String → Except String Unit)
    (issueKey : String) : List Comment → Except String Unit × List Call
  | [] => (.ok (), [])
  | c :: cs =>
    let newBody := maitStr c.body
    if newBody ≠ c.body then
      match updC issueKey c.id newBody with
      | .error e => (.error ("error updating: " ++ e),
          [.updateComment issueKey c.id newBody])
      | .ok _ =>
        let r := upkeepComments updC issueKey cs
        (r.1, .updateComment issueKey c.id newBody :: r.2)
    else upkeepComments updC issueKey cs

/-- Per-issue body of `upkeep`: get the issue, update the description when the
thumbnail rewrite changed it, then process the comments. -/
def upkeepIssue (getI : String → Except String Issue)
    (updI : UpdatePayload → Except String Unit)
    (updC : String → String → String → Except String Unit)
    (i : Issue) : Except String Unit × List Call :=
  match getI i.key with
  | .error e => (.error ("error getting issue: " ++ e), [.getIssue i.key])
  | .ok issue =>
    let newDescription := maitStr i.description
    if newDescription ≠ i.description then
      let update : UpdatePayload := ⟨i.key, some newDescription, none⟩
      match updI update with
      | .error e => (.error ("error updating description: " ++ e),
          [.getIssue i.key, .updateIssue update])
      | .ok _ =>
        let r := upkeepComments updC i.key issue.comments
        (r.1, .getIssue i.key :: .updateIssue update :: r.2)
    else
      let r := upkeepComments updC i.key issue.comments
      (r.1, .getIssue i.key :: r.2)

/-- The issue loop of `upkeep`. -/
def upkeepLoop (getI : String → Except String Issue)
    (updI : UpdatePayload → Except String Unit)
    (updC : String → String → String → Except String Unit) :
    List Issue → Except String Unit × List Call
  | [] => (.ok (), [])
  | i :: is =>
    match upkeepIssue getI updI updC i with
    | (.error e, calls) => (.error e, calls)
    | (.ok _, calls) =>
      let r := upkeepLoop getI updI updC is
      (r.1, calls ++ r.2)

/-- `upkeep`: search for unresolved issues, then fix thumbnails on each. -/
def upkeep (searchR : Except String (List Issue))
    (getI : String → Except String Issue)
    (updI : UpdatePayload → Except String Unit)
    (updC : String → String → String → Except String Unit) :
    Except String Unit × List Call :=
  match searchR with
  | .error e => (.error ("error getting issues: " ++ e), [.search])
  | .ok issues =>
    let r := upkeepLoop getI updI updC issues
    (r.1, .search :: r.2)

/-- Per-operation call success for `upkeep`. -/
def upkeepCallOK (searchR : Except String (List Issue))
    (getI : String → Except String Issue)
    (updI : UpdatePayload → Except String Unit)
    (updC : String → String → String → Except String Unit) : Call → Bool
  | .search => isOkE searchR
  | .getIssue k => isOkE (getI k)
  | .updateIssue p => isOkE (updI p)
  | .updateComment k i b => isOkE (updC k i b)
  | _ => true

/-! ### mirror (jira-status.go lines 298-362) -/

/-- The fixed download directory of `mirror`. -/
def mirrorBase : String := "/home/jlewallen/downloads/jira"

/-- `shouldMirror`: the regexp `(\.txt$|\.zip$|\.bin$)` matches exactly the
filenames ending in one of the three suffixes. -/
def shouldMirror (name : String) : Bool :=
  name.endsWith ".txt" || name.endsWith ".zip" || name.endsWith ".bin"

/-- Model of Go `path.Ext`: the suffix starting at the final dot of the last
path element, or empty when there is none. -/
def goPathExt (s : List Char) : List Char :=
  let r := s.reverse
  match r.dropWhile (fun c => !(c = '.' || c = '/')) with
  | '.' :: _ => '.' :: (r.takeWhile (fun c => !(c = '.' || c = '/'))).reverse
  | _ => []

/-- Fueled model of Go `strings.ReplaceAll(s, sub, "")` for nonempty `sub`:
remove every occurrence, scanning left to right. -/
def removeAllSub : Nat → List Char → List Char → List Char
  | 0, _, s => s
  | fuel + 1, sub, s =>
    match s with
    | [] => []
    | c :: r =>
      if startsWithL s sub then removeAllSub fuel sub (s.drop sub.length)
      else c :: removeAllSub fuel sub r

/-- `makeUniqueName`: drop every occurrence of the extension, then rebuild
`<noExt>_<unique><ext>` (with an empty extension `ReplaceAll` is the
identity). -/
def makeUniqueName (name unique : String) : String :=
  let ext := goPathExt name.data
  let noExt := if ext = [] then name.data else removeAllSub name.data.length ext name.data
  String.mk (noExt ++ "_".data ++ unique.data ++ ext)

/-- Go regexp class `\s` = `[\t\n\f\r ]`. -/
def goIsSpace (c : Char) : Bool :=
  c = '\t' || c = '\n' || c = Char.ofNat 12 || c = '\r' || c = ' '

/-- Characters removed by `removeRegexp` (the class `[:\"?'+.` + backquote +
`!()]`). -/
def removeChars (s : List Char) : List Char :=
  s.filter (fun c => !(c = ':' || c = '"' || c = '?' || c = Char.ofNat 39 || c = '+'
    || c = '.' || c = Char.ofNat 96 || c = '!' || c = '(' || c = ')'))

/-- `normalizeRegexp.ReplaceAllLiteralString value "_"`: each maximal run of
whitespace becomes one underscore (the flag records whether the previous
character was part of a run). -/
def normalizeWs : Bool → List Char → List Char
  | _, [] => []
  | inRun, c :: r =>
    if goIsSpace c then
      if inRun then normalizeWs true r else '_' :: normalizeWs true r
    else c :: normalizeWs false r

/-- `makeDirectoryName`: lowercase `<key>_<trimmed summary>`, drop punctuation,
turn `-`/`_` into spaces, then collapse whitespace runs into underscores. -/
def makeDirectoryName (key summary : String) : String :=
  let value := (key ++ "_" ++ summary.trim).toLower
  let v1 := removeChars value.data
  let v2 := v1.map (fun c => if c = '-' || c = '_' then ' ' else c)
  String.mk (normalizeWs false v2)

/-- `findExistingDirectory`: the first already-present directory whose
lowercased name starts with the lowercased issue key, else empty. -/
def findExistingDirectory (issueKey : String) (files : List String) : String :=
  match files.find? (fun f => f.toLower.startsWith issueKey.toLower) with
  | some f => f
  | none => ""

/-- `findAllURLs`: diagnostics links found in the description, then in each
comment body, then the attachments whose filename should be mirrored.  The
diagnostics regexp (`https://code.conservify.org/diagnostics/?\?id=([\S]+)`)
is abstracted by the oracle `inline`, which returns the matched ids of a text
in order; each entry is the pair (download name, save-as filename). -/
def findAllURLs (inline : String → List String) (issue : Issue) :
    List (String × String) :=
  ((inline issue.description).map (fun i => ("diagnostics-" ++ i, i ++ ".zip")))
    ++ (issue.comments.map (fun c =>
        (inline c.body).map (fun i => ("diagnostics-" ++ i, i ++ ".zip")))).flatten
    ++ (issue.attachments.filterMap (fun a =>
        if shouldMirror a.filename then some (a.filename, makeUniqueName a.filename a.id)
        else none))

/-- The download loop of `mirror`: a URL is downloaded only when its target
file does not exist (`os.IsNotExist`); a failed download or a failed local
write aborts. -/
def mirrorDownloads (download : String → Except String Unit)
    (statMissing : String → Bool) (localWrite : String → Except String Unit)
    (dir : String) : List (String × String) → Except String Unit × List Call
  | [] => (.ok (), [])
  | (name, saveAs) :: rest =>
    if statMissing (dir ++ "/" ++ saveAs) then
      match download name with
      | .error e => (.error e, [.download name])
      | .ok _ =>
        match localWrite (dir ++ "/" ++ saveAs) with
        | .error e => (.error e, [.download name])
        | .ok _ =>
          let r := mirrorDownloads download statMissing localWrite dir rest
          (r.1, .download name :: r.2)
    else mirrorDownloads download statMissing localWrite dir rest

/-- Per-issue body of `mirror`.  A failed `os.MkdirAll` for the issue
directory makes the Go function return `nil` — a successful result that stops
the whole loop, encoded as `.ok false`; `.ok true` means continue. -/
def mirrorIssue (getI : String → Except String Issue)
    (download : String → Except String Unit) (statMissing : String → Bool)
    (localWrite : String → Except String Unit) (mkdirOK : String → Bool)
    (inline : String → List String) (files : List String) (searchKey : String) :
    Except String Bool × List Call :=
  match getI searchKey with
  | .error e => (.error ("error getting issue: " ++ e), [.getIssue searchKey])
  | .ok issue =>
    let d0 := findExistingDirectory issue.key files
    let directoryName := if d0.length = 0 then makeDirectoryName issue.key issue.summary else d0
    let full := mirrorBase ++ "/" ++ directoryName
    if mkdirOK full then
      let r := mirrorDownloads download statMissing localWrite full (findAllURLs inline issue)
      (Except.map (fun _ => true) r.1, .getIssue searchKey :: r.2)
    else (.ok false, [.getIssue searchKey])

/-- The issue loop of `mirror`. -/
def mirrorLoop (getI : String → Except String Issue)
    (download : String → Except String Unit) (statMissing : String → Bool)
    (localWrite : String → Except String Unit) (mkdirOK : String → Bool)
    (inline : String → List String) (files : List String) :
    List Issue → Except String Unit × List Call
  | [] => (.ok (), [])
  | i :: is =>
    match mirrorIssue getI download statMissing localWrite mkdirOK inline files i.key with
    | (.error e, calls) => (.error e, calls)
    | (.ok false, calls) => (.ok (), calls)
    | (.ok true, calls) =>
      let r := mirrorLoop getI download statMissing localWrite mkdirOK inline files is
      (r.1, calls ++ r.2)

/-- `mirror`: search, prepare the base directory and its listing (local
filesystem steps, taken as oracles), then mirror each issue. -/
def mirror (searchR : Except String (List Issue))
    (getI : String → Except String Issue)
    (download : String → Except String Unit) (statMissing : String → Bool)
    (localWrite : String → Except String Unit)
    (mkdirBaseOK : Bool) (readDirR : Except String (List String))
    (mkdirOK : String → Bool) (inline : String → List String) :
    Except String Unit × List Call :=
  match searchR with
  | .error e => (.error ("error getting issues: " ++ e), [.search])
  | .ok issues =>
    if mkdirBaseOK then
      match readDirR with
      | .error e => (.error ("reading directory: " ++ e), [.search])
      | .ok files =>
        let r := mirrorLoop getI download statMissing localWrite mkdirOK inline files issues
        (r.1, .search :: r.2)
    else (.error ("creating directory"), [.search])

/-- Per-operation call success for `mirror` (remote calls only; the local
filesystem steps are not remote API calls). -/
def mirrorCallOK (searchR : Except String (List Issue))
    (getI : String → Except String Issue)
    (download : String → Except String Unit) : Call → Bool
  | .search => isOkE searchR
  | .getIssue k => isOkE (getI k)
  | .download n => isOkE (download n)
  | _ => true

/-! ### Concrete sample data for the witnesses -/

/-- A sample issue with no links, comments, versions or attachments. -/
def sampleIssue : Issue := ⟨"10000", "FK-2", "widget", "", [], [], [], []⟩

/-- A sample issue whose only link is an epic link to `FK-9`. -/
def sampleIssueEpicLinked : Issue :=
  ⟨"10001", "FK-3", "widget", "", [], [⟨"L1", some ⟨"FK-9", "Epic"⟩, none⟩], [], []⟩

/-- A sample issue that already carries fix version `V1`. -/
def sampleIssueWithVersion : Issue :=
  ⟨"10002", "FK-4", "widget", "", [], [], [⟨"V1"⟩], []⟩

lemma length_dropWhile_le (p : Char → Bool) (l : List Char) :
    (l.dropWhile p).length ≤ l.length := by
  induction l with
  | nil => simp [List.dropWhile]
  | cons c r ih =>
    by_cases h : p c
    · rw [List.dropWhile_cons_of_pos h]; exact Nat.le_succ_of_le ih
    · rw [List.dropWhile_cons_of_neg h]

/-- The scanner's match condition at a `'!'`. -/
def matchCond (c : Char) (rest : List Char) : Prop :=
  c = '!' ∧ (rest.dropWhile isNameChar).head? = some '!' ∧ rest.takeWhile isNameChar ≠ []

instance (c : Char) (rest : List Char) : Decidable (matchCond c rest) := by
  unfold matchCond; infer_instance

lemma tail_length_lt (rest : List Char)
    (h : (rest.dropWhile isNameChar).head? = some '!') :
    (rest.dropWhile isNameChar).tail.length < rest.length := by
  have hle := length_dropWhile_le isNameChar rest
  cases hdw : rest.dropWhile isNameChar with
  | nil => rw [hdw] at h; simp at h
  | cons d r =>
    rw [hdw] at hle
    simp only [hdw, List.tail_cons]
    simp at hle
    omega

lemma maitGo_congr :
    ∀ f1 : Nat, ∀ f2 : Nat, ∀ s : List Char, s.length ≤ f1 → s.length ≤ f2 →
      maitGo f1 s = maitGo f2 s := by
  intro f1
  induction f1 with
  | zero =>
    intro f2 s h1 _
    have : s = [] := List.length_eq_zero.mp (Nat.le_zero.mp h1)
    subst this
    cases f2 <;> rfl
  | succ n ih =>
    intro f2 s h1 h2
    cases s with
    | nil => cases f2 <;> rfl
    | cons c rest =>
      cases f2 with
      | zero => exact absurd h2 (by simp)
      | succ m =>
        have hr1 : rest.length ≤ n := by simpa using h1
        have hr2 : rest.length ≤ m := by simpa using h2
        show maitGo (n + 1) (c :: rest) = maitGo (m + 1) (c :: rest)
        unfold maitGo
        by_cases hm : matchCond c rest
        · rw [if_pos (by exact hm), if_pos (by exact hm)]
          have hlt := tail_length_lt _ hm.2.1
          rw [ih m _ (Nat.le_of_lt (Nat.lt_of_lt_of_le hlt hr1))
            (Nat.le_of_lt (Nat.lt_of_lt_of_le hlt hr2))]
        · rw [if_neg (by exact hm), if_neg (by exact hm)]
          rw [ih m rest hr1 hr2]

lemma chunksGo_congr :
    ∀ f1 : Nat, ∀ f2 : Nat, ∀ s : List Char, s.length ≤ f1 → s.length ≤ f2 →
      chunksGo f1 s = chunksGo f2 s := by
  intro f1
  induction f1 with
  | zero =>
    intro f2 s h1 _
    have : s = [] := List.length_eq_zero.mp (Nat.le_zero.mp h1)
    subst this
    cases f2 <;> rfl
  | succ n ih =>
    intro f2 s h1 h2
    cases s with
    | nil => cases f2 <;> rfl
    | cons c rest =>
      cases f2 with
      | zero => exact absurd h2 (by simp)
      | succ m =>
        have hr1 : rest.length ≤ n := by simpa using h1
        have hr2 : rest.length ≤ m := by simpa using h2
        show chunksGo (n + 1) (c :: rest) = chunksGo (m + 1) (c :: rest)
        unfold chunksGo
        by_cases hm : matchCond c rest
        · rw [if_pos (by exact hm), if_pos (by exact hm)]
          have hlt := tail_length_lt _ hm.2.1
          rw [ih m _ (Nat.le_of_lt (Nat.lt_of_lt_of_le hlt hr1))
            (Nat.le_of_lt (Nat.lt_of_lt_of_le hlt hr2))]
        · rw [if_neg (by exact hm), if_neg (by exact hm)]
          rw [ih m rest hr1 hr2]

lemma mait_nil : makeAllImagesThumbnails [] = [] := rfl

lemma chunks_nil : chunks [] = [] := rfl

lemma mait_cons (c : Char) (rest : List Char) :
    makeAllImagesThumbnails (c :: rest) =
      if matchCond c rest then
        makeMatchThumbnail ('!' :: (rest.takeWhile isNameChar ++ ['!']))
          ++ makeAllImagesThumbnails (rest.dropWhile isNameChar).tail
      else c :: makeAllImagesThumbnails rest := by
  show maitGo (rest.length + 1) (c :: rest) = _
  unfold maitGo
  by_cases hm : matchCond c rest
  · rw [if_pos (by exact hm), if_pos hm]
    have hlt := tail_length_lt _ hm.2.1
    rw [maitGo_congr rest.length _ _ (Nat.le_of_lt hlt) (Nat.le_refl _)]
    rfl
  · rw [if_neg (by exact hm), if_neg hm]
    rfl

lemma chunks_cons (c : Char) (rest : List Char) :
    chunks (c :: rest) =
      if matchCond c rest then
        .img (rest.takeWhile isNameChar) :: chunks (rest.dropWhile isNameChar).tail
      else .lit c :: chunks rest := by
  show chunksGo (rest.length + 1) (c :: rest) = _
  unfold chunksGo
  by_cases hm : matchCond c rest
  · rw [if_pos (by exact hm), if_pos hm]
    have hlt := tail_length_lt _ hm.2.1
    rw [chunksGo_congr rest.length _ _ (Nat.le_of_lt hlt) (Nat.le_refl _)]
    rfl
  · rw [if_neg (by exact hm), if_neg hm]
    rfl

lemma takeWhile_all_sat {p : Char → Bool} {l : List Char} (h : ∀ c ∈ l, p c = true) :
    l.takeWhile p = l ∧ l.dropWhile p = [] := by
  induction l with
  | nil => exact ⟨rfl, rfl⟩
  | cons c r ih =>
    have hc : p c = true := h c (List.mem_cons_self c r)
    have := ih (fun d hd => h d (List.mem_cons_of_mem c hd))
    rw [List.takeWhile_cons_of_pos hc, List.dropWhile_cons_of_pos hc]
    exact ⟨by rw [this.1], this.2⟩

lemma span_prepend {p : Char → Bool} {name : List Char} {d : Char} (t : List Char)
    (hname : ∀ c ∈ name, p c = true) (hd : p d = false) :
    (name ++ d :: t).takeWhile p = name ∧ (name ++ d :: t).dropWhile p = d :: t := by
  induction name with
  | nil =>
    simp only [List.nil_append]
    rw [List.takeWhile_cons_of_neg (by simp [hd]), List.dropWhile_cons_of_neg (by simp [hd])]
    exact ⟨rfl, rfl⟩
  | cons c r ih =>
    have hc : p c = true := hname c (List.mem_cons_self c r)
    have := ih (fun x hx => hname x (List.mem_cons_of_mem c hx))
    simp only [List.cons_append]
    rw [List.takeWhile_cons_of_pos hc, List.dropWhile_cons_of_pos hc, this.1, this.2]
    exact ⟨rfl, rfl⟩

lemma matchCond_decomp (name rest3 : List Char) (h1 : name ≠ [])
    (h2 : ∀ c ∈ name, isNameChar c = true) :
    matchCond '!' (name ++ '!' :: rest3)
      ∧ (name ++ '!' :: rest3).takeWhile isNameChar = name
      ∧ (name ++ '!' :: rest3).dropWhile isNameChar = '!' :: rest3 := by
  have hbang : isNameChar '!' = false := by decide
  have hsp := span_prepend rest3 h2 hbang
  refine ⟨⟨rfl, ?_, ?_⟩, hsp.1, hsp.2⟩
  · rw [hsp.2]; rfl
  · rw [hsp.1]; exact h1

/-- Unfolding of the scanner at a successful match. -/
lemma mait_match (name rest3 : List Char) (h1 : name ≠ [])
    (h2 : ∀ c ∈ name, isNameChar c = true) :
    makeAllImagesThumbnails ('!' :: (name ++ '!' :: rest3)) =
      makeMatchThumbnail ('!' :: (name ++ ['!'])) ++ makeAllImagesThumbnails rest3 := by
  obtain ⟨hm, htw, hdw⟩ := matchCond_decomp name rest3 h1 h2
  rw [mait_cons, if_pos hm, htw, hdw]
  rfl

lemma chunks_match (name rest3 : List Char) (h1 : name ≠ [])
    (h2 : ∀ c ∈ name, isNameChar c = true) :
    chunks ('!' :: (name ++ '!' :: rest3)) = .img name :: chunks rest3 := by
  obtain ⟨hm, htw, hdw⟩ := matchCond_decomp name rest3 h1 h2
  rw [chunks_cons, if_pos hm, htw, hdw]
  rfl

/-- Unfolding of the scanner when no match starts at the head. -/
lemma mait_not {c : Char} {rest : List Char} (h : ¬ matchCond c rest) :
    makeAllImagesThumbnails (c :: rest) = c :: makeAllImagesThumbnails rest := by
  rw [mait_cons, if_neg h]

lemma chunks_not {c : Char} {rest : List Char} (h : ¬ matchCond c rest) :
    chunks (c :: rest) = .lit c :: chunks rest := by
  rw [chunks_cons, if_neg h]

lemma matchCond_ne {c : Char} (rest : List Char) (h : c ≠ '!') : ¬ matchCond c rest :=
  fun hm => h hm.1

/-- The decomposition is sound: rendering the chunks of `s` with the original
match texts gives back `s`, the rewriter is exactly `renderNew ∘ chunks`, and
every match name is a nonempty run of `[^!\n]` characters. -/
lemma chunks_sound_aux : ∀ n : Nat, ∀ s : List Char, s.length ≤ n →
    renderOrig (chunks s) = s
      ∧ makeAllImagesThumbnails s = renderNew (chunks s)
      ∧ (∀ name, Chunk.img name ∈ chunks s → name ≠ [] ∧ ∀ c ∈ name, isNameChar c = true) := by
  intro n
  induction n with
  | zero =>
    intro s hs
    have : s = [] := List.length_eq_zero.mp (Nat.le_zero.mp hs)
    subst this
    refine ⟨rfl, rfl, ?_⟩
    intro name hmem
    rw [chunks_nil] at hmem
    exact absurd hmem (List.not_mem_nil _)
  | succ n ih =>
    intro s hs
    cases s with
    | nil =>
      refine ⟨rfl, rfl, ?_⟩
      intro name hmem
      rw [chunks_nil] at hmem
      exact absurd hmem (List.not_mem_nil _)
    | cons c rest =>
      by_cases hm : matchCond c rest
      · obtain ⟨hc, hh, ht⟩ := hm
        subst hc
        cases hdw : rest.dropWhile isNameChar with
        | nil => rw [hdw] at hh; simp at hh
        | cons d rest3 =>
          have hd : d = '!' := by rw [hdw] at hh; simpa using hh
          subst hd
          have hrest : rest = rest.takeWhile isNameChar ++ '!' :: rest3 := by
            conv_lhs => rw [← List.takeWhile_append_dropWhile isNameChar rest]
            rw [hdw]
          have hname : ∀ c ∈ rest.takeWhile isNameChar, isNameChar c = true :=
            fun c hc => List.mem_takeWhile_imp hc
          have hlen3 : rest3.length ≤ n := by
            have := tail_length_lt rest (by rw [hdw]; rfl)
            rw [hdw] at this
            simp only [List.tail_cons] at this
            have hr : rest.length ≤ n := by simpa using hs
            omega
          obtain ⟨ihO, ihN, ihW⟩ := ih rest3 hlen3
          have hck : chunks ('!' :: rest) = .img (rest.takeWhile isNameChar) :: chunks rest3 := by
            conv_lhs => rw [hrest]
            exact chunks_match _ _ ht hname
          have hmk : makeAllImagesThumbnails ('!' :: rest) =
              makeMatchThumbnail ('!' :: (rest.takeWhile isNameChar ++ ['!']))
                ++ makeAllImagesThumbnails rest3 := by
            conv_lhs => rw [hrest]
            exact mait_match _ _ ht hname
          refine ⟨?_, ?_, ?_⟩
          · rw [hck]
            show ('!' :: (rest.takeWhile isNameChar ++ ['!'])) ++ renderOrig (chunks rest3)
              = '!' :: rest
            rw [ihO]
            conv_rhs => rw [hrest]
            simp
          · rw [hmk, hck]
            show _ = makeMatchThumbnail ('!' :: (rest.takeWhile isNameChar ++ ['!']))
              ++ renderNew (chunks rest3)
            rw [ihN]
          · intro name hmem
            rw [hck] at hmem
            rcases List.mem_cons.mp hmem with heq | hmem2
            · injection heq with heq
              subst heq
              exact ⟨ht, hname⟩
            · exact ihW name hmem2
      · have hr : rest.length ≤ n := by simpa using hs
        obtain ⟨ihO, ihN, ihW⟩ := ih rest hr
        refine ⟨?_, ?_, ?_⟩
        · rw [chunks_not hm]
          show c :: renderOrig (chunks rest) = c :: rest
          rw [ihO]
        · rw [mait_not hm, chunks_not hm]
          show c :: makeAllImagesThumbnails rest = c :: renderNew (chunks rest)
          rw [ihN]
        · intro name hmem
          rw [chunks_not hm] at hmem
          rcases List.mem_cons.mp hmem with heq | hmem2
          · exact absurd heq (by simp)
          · exact ihW name hmem2

lemma chunks_renderOrig (s : List Char) : renderOrig (chunks s) = s :=
  (chunks_sound_aux s.length s (Nat.le_refl _)).1

lemma mait_renderNew (s : List Char) : makeAllImagesThumbnails s = renderNew (chunks s) :=
  (chunks_sound_aux s.length s (Nat.le_refl _)).2.1

lemma chunks_wf (s : List Char) :
    ∀ name, Chunk.img name ∈ chunks s → name ≠ [] ∧ ∀ c ∈ name, isNameChar c = true :=
  (chunks_sound_aux s.length s (Nat.le_refl _)).2.2

lemma goSplit_length (sep : Char) : ∀ l : List Char, (goSplit sep l).length = l.count sep + 1 := by
  intro l
  induction l with
  | nil => rfl
  | cons c r ih =>
    unfold goSplit
    by_cases hc : c = sep
    · rw [if_pos hc]
      subst hc
      simp only [List.length_cons, ih, List.count_cons_self]
    · rw [if_neg hc]
      cases hgs : goSplit sep r with
      | nil => rw [hgs] at ih; simp at ih
      | cons p ps =>
        rw [hgs] at ih
        simp only [List.length_cons] at ih ⊢
        rw [List.count_cons_of_ne (fun h => hc h.symm)]
        omega

lemma count_pipe_match (name : List Char) :
    ('!' :: (name ++ ['!'])).count '|' = name.count '|' := by
  rw [List.count_cons_of_ne (by decide), List.count_append]
  simp

/-- When the match contains exactly one pipe, the callback keeps it. -/
lemma mmt_keep {name : List Char} (hc : name.count '|' = 1) :
    makeMatchThumbnail ('!' :: (name ++ ['!'])) = '!' :: (name ++ ['!']) := by
  unfold makeMatchThumbnail
  rw [if_pos]
  rw [goSplit_length, count_pipe_match, hc]

/-- When the pipe count differs from one, the callback strips the bangs and
appends `|thumbnail`. -/
lemma mmt_rewrite {name : List Char} (hc : name.count '|' ≠ 1) (hn : '!' ∉ name) :
    makeMatchThumbnail ('!' :: (name ++ ['!'])) =
      '!' :: ((name ++ ('|' :: "thumbnail".data)) ++ ['!']) := by
  unfold makeMatchThumbnail
  rw [if_neg]
  · have hfilter : ('!' :: (name ++ ['!'])).filter (fun c => c ≠ '!') = name := by
      rw [List.filter_cons_of_neg (by simp), List.filter_append]
      rw [List.filter_eq_self.mpr (fun a ha => by simp; exact fun h => hn (h ▸ ha))]
      simp
    rw [hfilter]
    simp
  · rw [goSplit_length, count_pipe_match]
    omega

lemma mmt_head (x : List Char) : ∃ u, makeMatchThumbnail ('!' :: x) = '!' :: u := by
  by_cases h : (goSplit '|' ('!' :: x)).length = 2
  · exact ⟨x, by unfold makeMatchThumbnail; rw [if_pos h]⟩
  · unfold makeMatchThumbnail
    rw [if_neg h, List.cons_append]
    exact ⟨_, rfl⟩

lemma mait_headBang (r : List Char) :
    ∃ t, makeAllImagesThumbnails ('!' :: r) = '!' :: t := by
  by_cases hm : matchCond '!' r
  · rw [mait_cons, if_pos hm]
    obtain ⟨u, hu⟩ := mmt_head (r.takeWhile isNameChar ++ ['!'])
    rw [hu]
    exact ⟨u ++ makeAllImagesThumbnails (r.dropWhile isNameChar).tail, by simp⟩
  · rw [mait_not hm]
    exact ⟨_, rfl⟩

lemma mait_noBang {l : List Char} (h : ∀ c ∈ l, c ≠ '!') :
    makeAllImagesThumbnails l = l := by
  induction l with
  | nil => rfl
  | cons c r ih =>
    rw [mait_not (matchCond_ne r (h c (List.mem_cons_self c r)))]
    rw [ih (fun d hd => h d (List.mem_cons_of_mem c hd))]

lemma mait_prepend {p : List Char} (t : List Char) (h : ∀ c ∈ p, c ≠ '!') :
    makeAllImagesThumbnails (p ++ t) = p ++ makeAllImagesThumbnails t := by
  induction p with
  | nil => simp
  | cons c r ih =>
    rw [List.cons_append, mait_not (matchCond_ne _ (h c (List.mem_cons_self c r)))]
    rw [ih (fun d hd => h d (List.mem_cons_of_mem c hd))]
    rfl

lemma chunks_prepend {p : List Char} (t : List Char) (h : ∀ c ∈ p, c ≠ '!') :
    chunks (p ++ t) = p.map Chunk.lit ++ chunks t := by
  induction p with
  | nil => simp
  | cons c r ih =>
    rw [List.cons_append, chunks_not (matchCond_ne _ (h c (List.mem_cons_self c r)))]
    rw [ih (fun d hd => h d (List.mem_cons_of_mem c hd))]
    rfl

lemma dropWhile_head_false {p : Char → Bool} :
    ∀ {l : List Char} {d : Char} {r : List Char}, l.dropWhile p = d :: r → p d = false := by
  intro l
  induction l with
  | nil => intro d r h; simp [List.dropWhile] at h
  | cons c cs ih =>
    intro d r h
    by_cases hc : p c
    · rw [List.dropWhile_cons_of_pos hc] at h
      exact ih h
    · rw [List.dropWhile_cons_of_neg hc] at h
      injection h with h1 _
      subst h1
      exact Bool.not_eq_true _ ▸ (by simpa using hc)

/-- C1: `makeAllImagesThumbnails` rewrites the input exactly match by match
(`renderOrig (chunks s) = s` shows `chunks s` is the genuine decomposition of
`s` into matches and non-match characters, and the rewriter is
`renderNew ∘ chunks`); every match whose text contains no `'|'` becomes the
same name followed by `|thumbnail` inside the `'!'` delimiters; in particular
`!photo.png!` becomes `!photo.png|thumbnail!`. -/
theorem C1_no_pipe_gains_thumbnail (s : List Char) :
    makeAllImagesThumbnails s = renderNew (chunks s)
      ∧ renderOrig (chunks s) = s
      ∧ (∀ name, Chunk.img name ∈ chunks s → '|' ∉ name →
          renderChunkNew (Chunk.img name) = '!' :: ((name ++ ('|' :: "thumbnail".data)) ++ ['!']))
      ∧ makeAllImagesThumbnails "!photo.png!".data = "!photo.png|thumbnail!".data := by
  refine ⟨mait_renderNew s, chunks_renderOrig s, ?_, by decide⟩
  intro name hmem hpipe
  obtain ⟨_, hname⟩ := chunks_wf s name hmem
  have hbang : '!' ∉ name := fun hmem2 => by
    have := hname '!' hmem2
    exact absurd this (by decide)
  have hcount : name.count '|' = 0 := List.count_eq_zero.mpr hpipe
  show makeMatchThumbnail ('!' :: (name ++ ['!'])) = _
  rw [mmt_rewrite (by omega) hbang]

/-- Witness for C1 at the concrete input `!photo.png!`. -/
theorem C1_no_pipe_gains_thumbnail_witness :
    renderChunkNew (Chunk.img "photo.png".data) =
      '!' :: (("photo.png".data ++ ('|' :: "thumbnail".data)) ++ ['!']) :=
  (C1_no_pipe_gains_thumbnail "!photo.png!".data).2.2.1 "photo.png".data
    (by decide) (by decide)

/-- C2 as stated is false: `!photo.png|width=200|x!` already contains a pipe
modifier, yet the function does not leave it unchanged (it appends another
`|thumbnail`, because the code keeps a match only when splitting on `'|'`
yields exactly two parts). -/
theorem C2_counterexample :
    makeAllImagesThumbnails "!photo.png|width=200|x!".data ≠
      "!photo.png|width=200|x!".data := by decide

/-- C2 amended: a match is left unchanged exactly when it contains exactly one
`'|'` (two pipe-separated parts); matches with two or more pipes are rewritten
as well.  In particular `!photo.png|width=200!` is returned unchanged. -/
theorem C2_exactly_one_pipe_unchanged (s : List Char) :
    makeAllImagesThumbnails s = renderNew (chunks s)
      ∧ renderOrig (chunks s) = s
      ∧ (∀ name, Chunk.img name ∈ chunks s → name.count '|' = 1 →
          renderChunkNew (Chunk.img name) = renderChunkOrig (Chunk.img name))
      ∧ makeAllImagesThumbnails "!photo.png|width=200!".data = "!photo.png|width=200!".data := by
  refine ⟨mait_renderNew s, chunks_renderOrig s, ?_, by decide⟩
  intro name _ hcount
  show makeMatchThumbnail ('!' :: (name ++ ['!'])) = _
  rw [mmt_keep hcount]
  rfl

/-- Witness for C2's amended statement at the concrete input
`!photo.png|width=200!`. -/
theorem C2_exactly_one_pipe_unchanged_witness :
    renderChunkNew (Chunk.img "photo.png|width=200".data) =
      renderChunkOrig (Chunk.img "photo.png|width=200".data) :=
  (C2_exactly_one_pipe_unchanged "!photo.png|width=200!".data).2.2.1
    "photo.png|width=200".data (by decide) (by decide)

/-- C3: text outside the matches is untouched: the input decomposes as
`renderOrig (chunks s) = s`, the output is the same decomposition rendered
with `renderChunkNew`, and on every non-match character the two renderings
agree, so every character outside the matches reappears identically and in
order. -/
theorem C3_non_match_text_untouched (s : List Char) :
    renderOrig (chunks s) = s
      ∧ makeAllImagesThumbnails s = renderNew (chunks s)
      ∧ (∀ ch ∈ chunks s, (∃ c, ch = Chunk.lit c) →
          renderChunkNew ch = renderChunkOrig ch) := by
  refine ⟨chunks_renderOrig s, mait_renderNew s, ?_⟩
  intro ch _ hlit
  obtain ⟨c, hc⟩ := hlit
  subst hc
  rfl

/-- Witness for C3 at a concrete input with text around a match. -/
theorem C3_non_match_text_untouched_witness :
    renderChunkNew (Chunk.lit 'a') = renderChunkOrig (Chunk.lit 'a') :=
  (C3_non_match_text_untouched "a!p.png!b".data).2.2 (Chunk.lit 'a')
    (by decide) ⟨'a', rfl⟩

/-- C9 as stated is false: on `!a|b|c!` the first application appends
`|thumbnail` (three pipe-separated parts), and the second application appends
it again, so the function is not idempotent. -/
theorem C9_counterexample :
    makeAllImagesThumbnails (makeAllImagesThumbnails "!a|b|c!".data) ≠
      makeAllImagesThumbnails "!a|b|c!".data := by decide

lemma mait_idem_aux : ∀ n : Nat, ∀ s : List Char, s.length ≤ n →
    (∀ name, Chunk.img name ∈ chunks s → name.count '|' ≤ 1) →
    makeAllImagesThumbnails (makeAllImagesThumbnails s) = makeAllImagesThumbnails s := by
  intro n
  induction n with
  | zero =>
    intro s hs _
    have : s = [] := List.length_eq_zero.mp (Nat.le_zero.mp hs)
    subst this
    rfl
  | succ n ih =>
    intro s hs hyp
    cases s with
    | nil => rfl
    | cons c rest =>
      have hrn : rest.length ≤ n := by simpa using hs
      by_cases hm : matchCond c rest
      · obtain ⟨hc, hh, ht⟩ := hm
        subst hc
        cases hdw : rest.dropWhile isNameChar with
        | nil => rw [hdw] at hh; simp at hh
        | cons d rest3 =>
          have hd : d = '!' := by rw [hdw] at hh; simpa using hh
          subst hd
          have hrest : rest = rest.takeWhile isNameChar ++ '!' :: rest3 := by
            conv_lhs => rw [← List.takeWhile_append_dropWhile isNameChar rest]
            rw [hdw]
          have hname : ∀ x ∈ rest.takeWhile isNameChar, isNameChar x = true :=
            fun x hx => List.mem_takeWhile_imp hx
          have hnameNe : ∀ x ∈ rest.takeWhile isNameChar, x ≠ '!' := by
            intro x hx heq
            have := hname x hx
            rw [heq] at this
            exact absurd this (by decide)
          have hlen3 : rest3.length ≤ n := by
            have := tail_length_lt rest (by rw [hdw]; rfl)
            rw [hdw] at this
            simp only [List.tail_cons] at this
            omega
          have hck : chunks ('!' :: rest) = .img (rest.takeWhile isNameChar) :: chunks rest3 := by
            conv_lhs => rw [hrest]
            exact chunks_match _ _ ht hname
          have hcount : (rest.takeWhile isNameChar).count '|' ≤ 1 :=
            hyp _ (by rw [hck]; exact List.mem_cons_self _ _)
          have hyp3 : ∀ nm, Chunk.img nm ∈ chunks rest3 → nm.count '|' ≤ 1 :=
            fun nm hmem => hyp nm (by rw [hck]; exact List.mem_cons_of_mem _ hmem)
          have hbody := ih rest3 hlen3 hyp3
          have hmk : makeAllImagesThumbnails ('!' :: rest) =
              makeMatchThumbnail ('!' :: (rest.takeWhile isNameChar ++ ['!']))
                ++ makeAllImagesThumbnails rest3 := by
            conv_lhs => rw [hrest]
            exact mait_match _ _ ht hname
          by_cases h1 : (rest.takeWhile isNameChar).count '|' = 1
          · rw [hmk, mmt_keep h1]
            have hshape : ('!' :: (rest.takeWhile isNameChar ++ ['!']))
                ++ makeAllImagesThumbnails rest3 =
                '!' :: (rest.takeWhile isNameChar ++ '!' :: makeAllImagesThumbnails rest3) := by
              simp
            rw [hshape, mait_match _ _ ht hname, mmt_keep h1, hbody]
            simp
          · have h0 : (rest.takeWhile isNameChar).count '|' = 0 := by omega
            have hbangNotIn : '!' ∉ rest.takeWhile isNameChar :=
              fun hmem => (hnameNe '!' hmem) rfl
            rw [hmk, mmt_rewrite h1 hbangNotIn]
            have hname2 : ∀ x ∈ rest.takeWhile isNameChar ++ ('|' :: "thumbnail".data),
                isNameChar x = true := by
              intro x hx
              rcases List.mem_append.mp hx with h | h
              · exact hname x h
              · have hall : ∀ y ∈ ('|' :: "thumbnail".data), isNameChar y = true := by decide
                exact hall x h
            have hne2 : rest.takeWhile isNameChar ++ ('|' :: "thumbnail".data) ≠ [] := by
              simp
            have hcount2 : (rest.takeWhile isNameChar ++ ('|' :: "thumbnail".data)).count '|' = 1 := by
              rw [List.count_append, h0]
              decide
            have hshape : ('!' :: ((rest.takeWhile isNameChar ++ ('|' :: "thumbnail".data)) ++ ['!']))
                ++ makeAllImagesThumbnails rest3 =
                '!' :: ((rest.takeWhile isNameChar ++ ('|' :: "thumbnail".data))
                  ++ '!' :: makeAllImagesThumbnails rest3) := by
              simp
            rw [hshape, mait_match _ _ hne2 hname2, mmt_keep hcount2, hbody]
            simp
      · have hlit : chunks (c :: rest) = .lit c :: chunks rest := chunks_not hm
        have hypr : ∀ nm, Chunk.img nm ∈ chunks rest → nm.count '|' ≤ 1 :=
          fun nm hmem => hyp nm (by rw [hlit]; exact List.mem_cons_of_mem _ hmem)
        rw [mait_not hm]
        by_cases hc : c = '!'
        · subst hc
          by_cases hh : (rest.dropWhile isNameChar).head? = some '!'
          · have htw : rest.takeWhile isNameChar = [] := by
              by_contra htw
              exact hm ⟨rfl, hh, htw⟩
            have hdweq : rest.dropWhile isNameChar = rest := by
              conv_rhs => rw [← List.takeWhile_append_dropWhile isNameChar rest]
              rw [htw, List.nil_append]
            rw [hdweq] at hh
            cases rest with
            | nil => simp at hh
            | cons d r3 =>
              have hd : d = '!' := by simpa using hh
              subst hd
              obtain ⟨t, htt⟩ := mait_headBang r3
              rw [htt]
              have hnm2 : ¬ matchCond '!' ('!' :: t) := by
                intro hmc
                exact hmc.2.2 (List.takeWhile_cons_of_neg (by decide))
              rw [mait_not hnm2, ← htt, ih ('!' :: r3) hrn hypr]
          · cases hdw : rest.dropWhile isNameChar with
            | nil =>
              have hall : ∀ x ∈ rest, isNameChar x = true :=
                List.dropWhile_eq_nil_iff.mp hdw
              have hneB : ∀ x ∈ rest, x ≠ '!' := by
                intro x hx heq
                have := hall x hx
                rw [heq] at this
                exact absurd this (by decide)
              rw [mait_noBang hneB, mait_not hm, mait_noBang hneB]
            | cons d r4 =>
              have hdne : d ≠ '!' := by
                intro he
                subst he
                rw [hdw] at hh
                exact hh rfl
              have hdnc : isNameChar d = false := dropWhile_head_false hdw
              have hrest : rest = rest.takeWhile isNameChar ++ d :: r4 := by
                conv_lhs => rw [← List.takeWhile_append_dropWhile isNameChar rest]
                rw [hdw]
              have hname : ∀ x ∈ rest.takeWhile isNameChar, isNameChar x = true :=
                fun x hx => List.mem_takeWhile_imp hx
              have hnameNe : ∀ x ∈ rest.takeWhile isNameChar, x ≠ '!' := by
                intro x hx heq
                have := hname x hx
                rw [heq] at this
                exact absurd this (by decide)
              have hfr : makeAllImagesThumbnails rest =
                  rest.takeWhile isNameChar ++ d :: makeAllImagesThumbnails r4 := by
                conv_lhs => rw [hrest]
                rw [mait_prepend _ hnameNe, mait_not (matchCond_ne _ hdne)]
              rw [hfr]
              have hsp := span_prepend (makeAllImagesThumbnails r4) hname hdnc
              have hnm2 : ¬ matchCond '!'
                  (rest.takeWhile isNameChar ++ d :: makeAllImagesThumbnails r4) := by
                intro hmc
                have := hmc.2.1
                rw [hsp.2] at this
                simp only [List.head?_cons, Option.some.injEq] at this
                exact hdne this
              rw [mait_not hnm2, mait_prepend _ hnameNe, mait_not (matchCond_ne _ hdne)]
              have hlen4 : r4.length ≤ n := by
                have : rest.length = (rest.takeWhile isNameChar).length + (d :: r4).length := by
                  conv_lhs => rw [hrest]
                  rw [List.length_append]
                simp only [List.length_cons] at this
                omega
              have hcr : chunks rest =
                  (rest.takeWhile isNameChar).map Chunk.lit ++ (.lit d :: chunks r4) := by
                conv_lhs => rw [hrest]
                rw [chunks_prepend _ hnameNe, chunks_not (matchCond_ne _ hdne)]
              have hypr4 : ∀ nm, Chunk.img nm ∈ chunks r4 → nm.count '|' ≤ 1 := by
                intro nm hmem
                refine hypr nm ?_
                rw [hcr]
                refine List.mem_append.mpr (Or.inr ?_)
                exact List.mem_cons_of_mem _ hmem
              rw [ih r4 hlen4 hypr4]
        · rw [mait_not (matchCond_ne _ hc), ih rest hrn hypr]

/-- C9 amended: the rewriter is idempotent on every input whose matches each
contain at most one `'|'`; in general a match with two or more pipes gains
another `|thumbnail` on every application, so idempotence fails (see the
counterexample). -/
theorem C9_idempotent_when_at_most_one_pipe (s : List Char)
    (h : ∀ name, Chunk.img name ∈ chunks s → name.count '|' ≤ 1) :
    makeAllImagesThumbnails (makeAllImagesThumbnails s) = makeAllImagesThumbnails s :=
  mait_idem_aux s.length s (Nat.le_refl _) h

/-- Witness for C9's amended statement at the concrete input `!photo.png!`. -/
theorem C9_idempotent_when_at_most_one_pipe_witness :
    makeAllImagesThumbnails (makeAllImagesThumbnails "!photo.png!".data) =
      makeAllImagesThumbnails "!photo.png!".data :=
  C9_idempotent_when_at_most_one_pipe "!photo.png!".data (by
    intro name hmem
    have hch : chunks "!photo.png!".data = [Chunk.img "photo.png".data] := by decide
    rw [hch] at hmem
    have heq := List.mem_singleton.mp hmem
    injection heq with heq
    subst heq
    decide)

/-! ## Theorems about the API operations -/

lemma cisLoop_spec (doT : String → String → Except String Unit) (iid desired : String)
    (hdo : ∀ i t, doT i t = .ok ()) :
    ∀ ts : List Transition, changeIssueStatusLoop doT iid desired ts =
      match ts.find? (fun t => t.toName == desired) with
      | some t => (.ok (), [.doTransition iid t.id])
      | none => (.error "missing transition", []) := by
  intro ts
  induction ts with
  | nil => rfl
  | cons t ts ih =>
    by_cases hp : t.toName = desired
    · rw [List.find?_cons_of_pos _ (by simpa using hp)]
      unfold changeIssueStatusLoop
      rw [if_pos hp, hdo]
    · rw [List.find?_cons_of_neg _ (by simpa using hp)]
      unfold changeIssueStatusLoop
      rw [if_neg hp]
      exact ih

/-- C4: with the transitions fetched successfully and the transition call
succeeding, `changeIssueStatus` performs exactly the first transition whose
destination name equals the desired status and succeeds; when no transition
matches it returns the `missing transition` error and performs no transition
(the only call issued is the transition listing, so the issue's status is
untouched). -/
theorem C4_first_matching_transition
    (getT : String → Except String (List Transition))
    (doT : String → String → Except String Unit) (iid desired : String)
    (ts : List Transition) (hget : getT iid = .ok ts)
    (hdo : ∀ i t, doT i t = .ok ()) :
    changeIssueStatus getT doT iid desired =
      match ts.find? (fun t => t.toName == desired) with
      | some t => (.ok (), [.getTransitions iid, .doTransition iid t.id])
      | none => (.error "missing transition", [.getTransitions iid]) := by
  unfold changeIssueStatus
  rw [hget]
  dsimp only
  rw [cisLoop_spec doT iid desired hdo ts]
  cases ts.find? (fun t => t.toName == desired) <;> rfl

/-- Witness for C4 at a concrete transition list, in both directions. -/
theorem C4_first_matching_transition_witness :
    changeIssueStatus (fun _ => .ok [⟨"T1", "Done"⟩, ⟨"T2", "Awaiting QA"⟩])
        (fun _ _ => .ok ()) "10000" "Awaiting QA" =
      (.ok (), [.getTransitions "10000", .doTransition "10000" "T2"]) := by
  rw [C4_first_matching_transition (fun _ => .ok [⟨"T1", "Done"⟩, ⟨"T2", "Awaiting QA"⟩])
    (fun _ _ => .ok ()) "10000" "Awaiting QA" [⟨"T1", "Done"⟩, ⟨"T2", "Awaiting QA"⟩] rfl
    (fun _ _ => rfl)]
  decide

/-- C8: with a successful search, `findIssue` returns an issue exactly when
the result list has exactly one element (that element), and returns the
`unable to find issue` error on every list of length zero or at least two. -/
theorem C8_findIssue_single_result (issues : List Issue) :
    ((∃ i, (findIssue (.ok issues)).1 = .ok i) ↔ issues.length = 1)
      ∧ (issues.length ≠ 1 →
          findIssue (.ok issues) = (.error "unable to find issue", [.search]))
      ∧ (∀ i, issues = [i] → findIssue (.ok issues) = (.ok i, [.search])) := by
  refine ⟨⟨?_, ?_⟩, ?_, ?_⟩
  · rintro ⟨i, hi⟩
    by_contra hne
    simp only [findIssue] at hi
    rw [dif_pos hne] at hi
    exact absurd hi (by simp)
  · intro h1
    have hpos : 0 < issues.length := by omega
    refine ⟨issues.get ⟨0, hpos⟩, ?_⟩
    simp only [findIssue]
    rw [dif_neg (by omega)]
  · intro hne
    simp only [findIssue]
    rw [dif_pos hne]
  · intro i hi
    subst hi
    rfl

/-- Witness for C8 at concrete one-element, empty and two-element lists. -/
theorem C8_findIssue_single_result_witness :
    findIssue (.ok [sampleIssue]) = (.ok sampleIssue, [.search])
      ∧ findIssue (.ok ([] : List Issue)) = (.error "unable to find issue", [.search])
      ∧ findIssue (.ok [sampleIssue, sampleIssue]) =
          (.error "unable to find issue", [.search]) :=
  ⟨(C8_findIssue_single_result [sampleIssue]).2.2 sampleIssue rfl,
   (C8_findIssue_single_result []).2.1 (by decide),
   (C8_findIssue_single_result [sampleIssue, sampleIssue]).2.1 (by decide)⟩

/-- C10: an epic argument accepted by `strconv.Atoi` is formatted directly as
`<project>-<n>` with no search call (normalizing leading zeros, e.g. `007`
gives `FK-7`); only a non-numeric argument triggers the summary search, whose
first result is returned, with an error when there is none. -/
theorem C10_findEpic_numeric_skips_search (project epic : String)
    (searchR : Except String (List EpicIssue)) :
    (∀ n, goAtoi epic.data = some n →
        findEpic project epic searchR = (.ok (project ++ "-" ++ toString n), []))
      ∧ (∀ epics, goAtoi epic.data = none → searchR = .ok epics →
          findEpic project epic searchR =
            (match epics with
             | e :: _ => (.ok e.key, [.searchEpics])
             | [] => (.error ("unable to find Epic matching '" ++ epic ++ "'"),
                 [.searchEpics])))
      ∧ findEpic "FK" "007" searchR = (.ok "FK-7", []) := by
  refine ⟨?_, ?_, ?_⟩
  · intro n hn
    unfold findEpic
    rw [hn]
  · intro epics hn hs
    unfold findEpic
    rw [hn, hs]
  · unfold findEpic
    have h7 : goAtoi "007".data = some 7 := by decide
    rw [h7]
    show (Except.ok ("FK" ++ "-" ++ toString (7 : Int)), ([] : List Call)) = _
    decide

/-- Witness for C10: a numeric argument and a non-numeric argument. -/
theorem C10_findEpic_numeric_skips_search_witness :
    findEpic "FK" "7" (.ok []) = (.ok "FK-7", [])
      ∧ findEpic "FK" "deploy work" (.ok [⟨"FK-20", "Deploy work"⟩]) =
          (.ok "FK-20", [.searchEpics]) :=
  ⟨(C10_findEpic_numeric_skips_search "FK" "7" (.ok [])).1 7 (by decide),
   (C10_findEpic_numeric_skips_search "FK" "deploy work"
      (.ok [⟨"FK-20", "Deploy work"⟩])).2.1 [⟨"FK-20", "Deploy work"⟩] (by decide) rfl⟩

lemma processEnd_spec (delO : String → Except String Unit) (desired linkId : String)
    (hdel : ∀ i, delO i = .ok ()) (e : Option LinkEnd) (linked : Bool) :
    processEnd delO desired linkId e linked =
      (.ok (linked || (match e with | some le => le.key == desired | none => false)),
        if endQualifiesDelete desired e then [Call.deleteLink linkId] else []) := by
  cases e with
  | none => simp [processEnd, endQualifiesDelete]
  | some le =>
    simp only [processEnd, endQualifiesDelete]
    by_cases hk : le.key = desired
    · rw [if_pos hk]
      simp [hk]
    · rw [if_neg hk]
      by_cases ht : le.typeName = "Epic"
      · rw [if_pos ht, hdel]
        simp [hk, ht]
      · rw [if_neg ht]
        simp [hk, ht]

lemma processLinks_spec (delO : String → Except String Unit) (desired : String)
    (hdel : ∀ i, delO i = .ok ()) :
    ∀ links : List IssueLink, ∀ linked : Bool,
      processLinks delO desired links linked =
        (.ok (linked || links.any (refersToDesired desired)),
          epicDeleteCalls desired links) := by
  intro links
  induction links with
  | nil =>
    intro linked
    simp [processLinks, epicDeleteCalls]
  | cons l ls ih =>
    intro linked
    unfold processLinks
    rw [processEnd_spec delO desired l.id hdel l.inward linked]
    simp only []
    rw [processEnd_spec delO desired l.id hdel l.outward _]
    simp only []
    rw [ih _]
    simp only [epicDeleteCalls, List.map_cons, List.flatten_cons, refersToDesired,
      List.any_cons]
    simp [Bool.or_assoc]

/-- C5: per issue, with the calls succeeding, `linkEpics` deletes exactly the
link ends of type `Epic` whose key differs from the target epic's key (in
scan order, inward before outward), and adds one `Relates` link to the target
epic if and only if no existing inward or outward link references the
target's key. -/
theorem C5_linkEpics_deletes_and_links (getI : String → Except String Issue)
    (delO : String → Except String Unit) (addO : String → String → Except String Unit)
    (project desired n : String) (issue : Issue)
    (hget : getI (project ++ "-" ++ n) = .ok issue)
    (hdel : ∀ i, delO i = .ok ()) (hadd : ∀ a b, addO a b = .ok ()) :
    linkEpicsIssue getI delO addO project desired n =
      (.ok (), .getIssue (project ++ "-" ++ n) ::
        (epicDeleteCalls desired issue.issueLinks ++
          (if issue.issueLinks.any (refersToDesired desired) then []
           else [.addLink desired (project ++ "-" ++ n) "Relates"]))) := by
  unfold linkEpicsIssue
  simp only [hget]
  rw [processLinks_spec delO desired hdel issue.issueLinks false]
  simp only [Bool.false_or]
  cases hany : issue.issueLinks.any (refersToDesired desired) with
  | true => simp
  | false =>
    rw [hadd]
    simp

/-- Witness for C5: an issue with one conflicting epic link and no link to the
target gets that link deleted and a `Relates` link added. -/
theorem C5_linkEpics_deletes_and_links_witness :
    linkEpicsIssue (fun _ => .ok sampleIssueEpicLinked) (fun _ => .ok ())
        (fun _ _ => .ok ()) "FK" "FK-1" "3" =
      (.ok (), [.getIssue "FK-3", .deleteLink "L1", .addLink "FK-1" "FK-3" "Relates"]) := by
  rw [C5_linkEpics_deletes_and_links (fun _ => .ok sampleIssueEpicLinked) (fun _ => .ok ())
    (fun _ _ => .ok ()) "FK" "FK-1" "3" sampleIssueEpicLinked rfl (fun _ => rfl)
    (fun _ _ => rfl)]
  decide

lemma necessaryLoop_eq (vid : String) : ∀ l : List FixVersion,
    necessaryLoop vid l = !(l.any (fun fv => fv.id == vid)) := by
  intro l
  induction l with
  | nil => rfl
  | cons fv rest ih =>
    unfold necessaryLoop
    by_cases h : fv.id = vid
    · rw [if_pos h]
      simp [List.any_cons, h]
    · rw [if_neg h, ih]
      simp [List.any_cons, h]

/-- C6: per issue key, when the target version's ID is already among the
issue's fix versions `reversion` issues no update (the only call is the read);
otherwise it issues exactly one update whose payload sets only the
fix-version list — its description field (the only other field the program
ever sends) is absent. -/
theorem C6_reversion_minimal_update (getI : String → Except String Issue)
    (updI : UpdatePayload → Except String Unit) (project vid n : String) (issue : Issue)
    (hget : getI (project ++ "-" ++ n) = .ok issue) :
    (issue.fixVersions.any (fun fv => fv.id == vid) = true →
        reversionIssue getI updI project vid n = (.ok (), [.getIssue (project ++ "-" ++ n)]))
      ∧ (issue.fixVersions.any (fun fv => fv.id == vid) = false →
          (reversionIssue getI updI project vid n).2 =
            [.getIssue (project ++ "-" ++ n),
              .updateIssue ⟨issue.key, none, some [vid]⟩]) := by
  constructor
  · intro hin
    unfold reversionIssue
    simp only [hget]
    rw [necessaryLoop_eq, hin]
    simp
  · intro hout
    unfold reversionIssue
    simp only [hget]
    rw [necessaryLoop_eq, hout]
    simp only [Bool.not_false, if_pos]
    cases hupd : updI ⟨issue.key, none, some [vid]⟩ <;> simp

/-- Witness for C6: an issue already carrying the version is read but not
updated; an issue without it gets exactly the one-field update. -/
theorem C6_reversion_minimal_update_witness :
    reversionIssue (fun _ => .ok sampleIssueWithVersion) (fun _ => .ok ()) "FK" "V1" "4" =
        (.ok (), [.getIssue "FK-4"])
      ∧ (reversionIssue (fun _ => .ok sampleIssue) (fun _ => .ok ()) "FK" "V1" "2").2 =
          [.getIssue "FK-2", .updateIssue ⟨"FK-2", none, some ["V1"]⟩] :=
  ⟨(C6_reversion_minimal_update (fun _ => .ok sampleIssueWithVersion) (fun _ => .ok ())
      "FK" "V1" "4" sampleIssueWithVersion rfl).1 (by decide),
   (C6_reversion_minimal_update (fun _ => .ok sampleIssue) (fun _ => .ok ())
      "FK" "V1" "2" sampleIssue rfl).2 (by decide)⟩

/-! ### Fail-stop behaviour of the operations (C7) -/

lemma mem_dropLast_append {c : Call} {l1 l2 : List Call} (h : c ∈ (l1 ++ l2).dropLast) :
    c ∈ l1 ∨ c ∈ l2.dropLast := by
  cases l2 with
  | nil =>
    rw [List.append_nil] at h
    exact Or.inl (List.mem_of_mem_dropLast h)
  | cons x xs =>
    rw [List.dropLast_append_cons] at h
    rcases List.mem_append.mp h with h | h
    · exact Or.inl h
    · exact Or.inr h

lemma failStop_nil_trace {β : Type} (ok : Call → Bool) (r : Except String β) :
    failStop ok (r, []) :=
  ⟨by intro c hc; simp at hc, by intro _ c hc; simp at hc⟩

lemma failStop_single {β : Type} {ok : Call → Bool} {c : Call} (r : Except String β)
    (h : isOkE r = true → ok c = true) : failStop ok (r, [c]) := by
  constructor
  · intro x hx
    simp at hx
  · intro hr x hx
    rw [List.mem_singleton.mp hx]
    exact h hr

lemma failStop_prepend {β γ : Type} {ok : Call → Bool} {tr1 : List Call}
    {r1 : Except String β} {p : Except String γ × List Call}
    (h1 : ∀ c ∈ tr1, ok c = true) (h2 : failStop ok p)
    (hr : isOkE r1 = true → isOkE p.1 = true) :
    failStop ok (r1, tr1 ++ p.2) := by
  constructor
  · intro c hc
    rcases mem_dropLast_append hc with h | h
    · exact h1 c h
    · exact h2.1 c h
  · intro hok c hc
    rcases List.mem_append.mp hc with h | h
    · exact h1 c h
    · exact h2.2 (hr hok) c h

lemma isOkE_map {ε α β : Type} (f : α → β) (x : Except ε α) :
    isOkE (Except.map f x) = isOkE x := by
  cases x <;> rfl

lemma failStop_cons {β γ : Type} {ok : Call → Bool} {c : Call}
    {r1 : Except String β} {p : Except String γ × List Call}
    (h1 : ok c = true) (h2 : failStop ok p)
    (hr : isOkE r1 = true → isOkE p.1 = true) :
    failStop ok (r1, c :: p.2) := by
  show failStop ok (r1, [c] ++ p.2)
  exact failStop_prepend (fun x hx => by rw [List.mem_singleton.mp hx]; exact h1) h2 hr

lemma findEpic_failStop (epicSearch : Except String (List EpicIssue))
    (getI : String → Except String Issue) (delO : String → Except String Unit)
    (addO : String → String → Except String Unit) (project epicArg : String) :
    failStop (linkEpicsCallOKAmended epicSearch getI delO addO)
      (findEpic project epicArg epicSearch) := by
  unfold findEpic
  cases goAtoi epicArg.data with
  | some n => exact failStop_nil_trace _ _
  | none =>
    cases epicSearch with
    | error e => exact failStop_single _ (fun h => by simp [isOkE] at h)
    | ok epics =>
      cases epics with
      | nil => exact failStop_single _ (fun h => by simp [isOkE] at h)
      | cons e es => exact failStop_single _ (fun _ => rfl)

lemma processEnd_failStop (epicSearch : Except String (List EpicIssue))
    (getI : String → Except String Issue) (delO : String → Except String Unit)
    (addO : String → String → Except String Unit)
    (desired linkId : String) (e : Option LinkEnd) (linked : Bool) :
    failStop (linkEpicsCallOKAmended epicSearch getI delO addO)
      (processEnd delO desired linkId e linked) := by
  cases e with
  | none => exact failStop_nil_trace _ _
  | some le =>
    simp only [processEnd]
    by_cases hk : le.key = desired
    · rw [if_pos hk]
      exact failStop_nil_trace _ _
    · rw [if_neg hk]
      by_cases ht : le.typeName = "Epic"
      · rw [if_pos ht]
        cases hdel : delO linkId with
        | ok v =>
          exact failStop_single _ (fun _ => by
            show isOkE (delO linkId) = true
            rw [hdel]
            rfl)
        | error err => exact failStop_single _ (fun h => by simp [isOkE] at h)
      · rw [if_neg ht]
        exact failStop_nil_trace _ _

lemma processLinks_failStop (epicSearch : Except String (List EpicIssue))
    (getI : String → Except String Issue) (delO : String → Except String Unit)
    (addO : String → String → Except String Unit) (desired : String) :
    ∀ links : List IssueLink, ∀ linked : Bool,
      failStop (linkEpicsCallOKAmended epicSearch getI delO addO)
        (processLinks delO desired links linked) := by
  intro links
  induction links with
  | nil => intro linked; exact failStop_nil_trace _ _
  | cons l ls ih =>
    intro linked
    unfold processLinks
    split
    · rename_i e c1 heq1
      have hfs1 := processEnd_failStop epicSearch getI delO addO desired l.id l.inward linked
      rw [heq1] at hfs1
      exact hfs1
    · rename_i linked1 c1 heq1
      have hfs1 := processEnd_failStop epicSearch getI delO addO desired l.id l.inward linked
      rw [heq1] at hfs1
      split
      · rename_i e c2 heq2
        have hfs2 := processEnd_failStop epicSearch getI delO addO desired l.id l.outward linked1
        rw [heq2] at hfs2
        exact failStop_prepend (hfs1.2 rfl) hfs2
          (fun h => by simp [isOkE] at h)
      · rename_i linked2 c2 heq2
        have hfs2 := processEnd_failStop epicSearch getI delO addO desired l.id l.outward linked1
        rw [heq2] at hfs2
        show failStop _ ((processLinks delO desired ls linked2).1,
          (c1 ++ c2) ++ (processLinks delO desired ls linked2).2)
        refine failStop_prepend ?_ (ih linked2) (fun h => h)
        intro c hc
        rcases List.mem_append.mp hc with h | h
        · exact hfs1.2 rfl c h
        · exact hfs2.2 rfl c h

lemma linkEpicsIssue_failStop (epicSearch : Except String (List EpicIssue))
    (getI : String → Except String Issue) (delO : String → Except String Unit)
    (addO : String → String → Except String Unit) (project desired n : String) :
    failStop (linkEpicsCallOKAmended epicSearch getI delO addO)
      (linkEpicsIssue getI delO addO project desired n) := by
  unfold linkEpicsIssue
  dsimp only
  split
  · exact failStop_single _ (fun h => by simp [isOkE] at h)
  · rename_i issue hg
    have hok : linkEpicsCallOKAmended epicSearch getI delO addO
        (.getIssue (project ++ "-" ++ n)) = true := by
      show isOkE (getI (project ++ "-" ++ n)) = true
      rw [hg]
      rfl
    have hone : ∀ c ∈ [Call.getIssue (project ++ "-" ++ n)],
        linkEpicsCallOKAmended epicSearch getI delO addO c = true := by
      intro c hc
      rw [List.mem_singleton.mp hc]
      exact hok
    have hfsp := processLinks_failStop epicSearch getI delO addO desired issue.issueLinks false
    split
    · rename_i e cp heq
      rw [heq] at hfsp
      show failStop _ ((Except.error e : Except String Unit),
        [Call.getIssue (project ++ "-" ++ n)] ++ cp)
      exact failStop_prepend hone hfsp (fun h => by simp [isOkE] at h)
    · rename_i linked cp heq
      rw [heq] at hfsp
      cases linked with
      | true =>
        rw [if_pos rfl]
        show failStop _ ((Except.ok () : Except String Unit),
          [Call.getIssue (project ++ "-" ++ n)] ++ cp)
        exact failStop_prepend hone hfsp (fun h => rfl)
      | false =>
        rw [if_neg (by simp)]
        cases hadd : addO desired (project ++ "-" ++ n) with
        | ok v =>
          have htail : failStop (linkEpicsCallOKAmended epicSearch getI delO addO)
              ((Except.ok () : Except String Unit),
                cp ++ [.addLink desired (project ++ "-" ++ n) "Relates"]) := by
            refine failStop_prepend (hfsp.2 rfl) (failStop_single _ (fun _ => ?_)) (fun h => h)
            show isOkE (addO desired (project ++ "-" ++ n)) = true
            rw [hadd]
            rfl
          show failStop _ ((Except.ok () : Except String Unit),
            [Call.getIssue (project ++ "-" ++ n)]
              ++ (cp ++ [Call.addLink desired (project ++ "-" ++ n) "Relates"]))
          exact failStop_prepend hone htail (fun h => h)
        | error e =>
          have htail : failStop (linkEpicsCallOKAmended epicSearch getI delO addO)
              ((Except.error ("error: " ++ e) : Except String Unit),
                cp ++ [.addLink desired (project ++ "-" ++ n) "Relates"]) :=
            failStop_prepend (hfsp.2 rfl)
              (failStop_single (Except.error e : Except String Unit)
                (fun h => by simp [isOkE] at h))
              (fun h => by simp [isOkE] at h)
          show failStop _ ((Except.error ("error: " ++ e) : Except String Unit),
            [Call.getIssue (project ++ "-" ++ n)]
              ++ (cp ++ [Call.addLink desired (project ++ "-" ++ n) "Relates"]))
          exact failStop_prepend hone htail (fun h => by simp [isOkE] at h)

lemma linkEpicsLoop_failStop (epicSearch : Except String (List EpicIssue))
    (getI : String → Except String Issue) (delO : String → Except String Unit)
    (addO : String → String → Except String Unit) (project desired : String) :
    ∀ ns : List String,
      failStop (linkEpicsCallOKAmended epicSearch getI delO addO)
        (linkEpicsLoop getI delO addO project desired ns) := by
  intro ns
  induction ns with
  | nil => exact failStop_nil_trace _ _
  | cons n ns ih =>
    unfold linkEpicsLoop
    have hfs := linkEpicsIssue_failStop epicSearch getI delO addO project desired n
    cases hli : linkEpicsIssue getI delO addO project desired n with
    | mk r calls =>
      rw [hli] at hfs
      cases r with
      | error e => exact hfs
      | ok v => exact failStop_prepend (hfs.2 rfl) ih (fun h => h)

lemma linkEpics_failStop (epicSearch : Except String (List EpicIssue))
    (getList : Except String (List String))
    (getI : String → Except String Issue) (delO : String → Except String Unit)
    (addO : String → String → Except String Unit)
    (project epicArg : String) (ns : List String) :
    failStop (linkEpicsCallOKAmended epicSearch getI delO addO)
      (linkEpics epicSearch getList getI delO addO project epicArg ns) := by
  unfold linkEpics
  have hfe := findEpic_failStop epicSearch getI delO addO project epicArg
  cases hf : findEpic project epicArg epicSearch with
  | mk rf cf =>
    rw [hf] at hfe
    cases rf with
    | error e => exact hfe
    | ok desired =>
      show failStop _ ((linkEpicsLoop getI delO addO project desired ns).1,
        (cf ++ [Call.getLinkTypes]) ++ (linkEpicsLoop getI delO addO project desired ns).2)
      refine failStop_prepend ?_
        (linkEpicsLoop_failStop epicSearch getI delO addO project desired ns)
        (fun h => h)
      intro c hc
      rcases List.mem_append.mp hc with h | h
      · exact hfe.2 rfl c h
      · rw [List.mem_singleton.mp h]
        rfl

lemma upkeepComments_failStop (searchR : Except String (List Issue))
    (getI : String → Except String Issue) (updI : UpdatePayload → Except String Unit)
    (updC : String → String → String → Except String Unit) (issueKey : String) :
    ∀ cs : List Comment, failStop (upkeepCallOK searchR getI updI updC)
      (upkeepComments updC issueKey cs) := by
  intro cs
  induction cs with
  | nil => exact failStop_nil_trace _ _
  | cons c cs ih =>
    unfold upkeepComments
    dsimp only
    by_cases hch : maitStr c.body ≠ c.body
    · rw [if_pos hch]
      split
      · exact failStop_single _ (fun h => by simp [isOkE] at h)
      · rename_i v hu
        show failStop _ ((upkeepComments updC issueKey cs).1,
          [Call.updateComment issueKey c.id (maitStr c.body)]
            ++ (upkeepComments updC issueKey cs).2)
        refine failStop_prepend ?_ ih (fun h => h)
        intro x hx
        rw [List.mem_singleton.mp hx]
        show isOkE (updC issueKey c.id (maitStr c.body)) = true
        rw [hu]
        rfl
    · rw [if_neg hch]
      exact ih

lemma upkeepIssue_failStop (searchR : Except String (List Issue))
    (getI : String → Except String Issue) (updI : UpdatePayload → Except String Unit)
    (updC : String → String → String → Except String Unit) (i : Issue) :
    failStop (upkeepCallOK searchR getI updI updC) (upkeepIssue getI updI updC i) := by
  unfold upkeepIssue
  split
  · exact failStop_single _ (fun h => by simp [isOkE] at h)
  · rename_i issue hg
    have hok : upkeepCallOK searchR getI updI updC (.getIssue i.key) = true := by
      show isOkE (getI i.key) = true
      rw [hg]
      rfl
    dsimp only
    by_cases hd : maitStr i.description ≠ i.description
    · rw [if_pos hd]
      split
      · rename_i e hu
        constructor
        · intro c hc
          rw [show List.dropLast [Call.getIssue i.key,
              Call.updateIssue ⟨i.key, some (maitStr i.description), none⟩]
            = [Call.getIssue i.key] from rfl] at hc
          rw [List.mem_singleton.mp hc]
          exact hok
        · intro h
          exact absurd h (by simp [isOkE])
      · rename_i v hu
        show failStop _ ((upkeepComments updC i.key issue.comments).1,
          [Call.getIssue i.key,
            Call.updateIssue ⟨i.key, some (maitStr i.description), none⟩]
            ++ (upkeepComments updC i.key issue.comments).2)
        refine failStop_prepend ?_
          (upkeepComments_failStop searchR getI updI updC i.key issue.comments)
          (fun h => h)
        intro c hc
        rcases List.mem_cons.mp hc with hc | hc
        · subst hc
          exact hok
        · rw [List.mem_singleton.mp hc]
          show isOkE (updI ⟨i.key, some (maitStr i.description), none⟩) = true
          rw [hu]
          rfl
    · rw [if_neg hd]
      show failStop _ ((upkeepComments updC i.key issue.comments).1,
        [Call.getIssue i.key] ++ (upkeepComments updC i.key issue.comments).2)
      refine failStop_prepend ?_
        (upkeepComments_failStop searchR getI updI updC i.key issue.comments) (fun h => h)
      intro c hc
      rw [List.mem_singleton.mp hc]
      exact hok

lemma upkeepLoop_failStop (searchR : Except String (List Issue))
    (getI : String → Except String Issue) (updI : UpdatePayload → Except String Unit)
    (updC : String → String → String → Except String Unit) :
    ∀ is : List Issue, failStop (upkeepCallOK searchR getI updI updC)
      (upkeepLoop getI updI updC is) := by
  intro is
  induction is with
  | nil => exact failStop_nil_trace _ _
  | cons i is ih =>
    unfold upkeepLoop
    have hfs := upkeepIssue_failStop searchR getI updI updC i
    split
    · rename_i e calls heq
      rw [heq] at hfs
      exact hfs
    · rename_i v calls heq
      rw [heq] at hfs
      show failStop _ ((upkeepLoop getI updI updC is).1,
        calls ++ (upkeepLoop getI updI updC is).2)
      exact failStop_prepend (hfs.2 rfl) ih (fun h => h)

lemma upkeep_failStop (searchR : Except String (List Issue))
    (getI : String → Except String Issue) (updI : UpdatePayload → Except String Unit)
    (updC : String → String → String → Except String Unit) :
    failStop (upkeepCallOK searchR getI updI updC) (upkeep searchR getI updI updC) := by
  unfold upkeep
  cases searchR with
  | error e => exact failStop_single _ (fun h => by simp [isOkE] at h)
  | ok issues =>
    show failStop _ ((upkeepLoop getI updI updC issues).1,
      [Call.search] ++ (upkeepLoop getI updI updC issues).2)
    refine failStop_prepend ?_ (upkeepLoop_failStop (.ok issues) getI updI updC issues)
      (fun h => h)
    intro c hc
    rw [List.mem_singleton.mp hc]
    rfl

lemma findVersion_failStop (getProject : String → Except String Project)
    (getI : String → Except String Issue) (updI : UpdatePayload → Except String Unit)
    (projectKey versionSearch : String) :
    failStop (reversionCallOK getProject getI updI)
      (findVersion getProject projectKey versionSearch) := by
  unfold findVersion
  split
  · exact failStop_single _ (fun h => by simp [isOkE] at h)
  · rename_i project hg
    dsimp only
    split
    · exact failStop_single _ (fun h => by simp [isOkE] at h)
    · exact failStop_single _ (fun _ => by
        show isOkE (getProject projectKey) = true
        rw [hg]
        rfl)

lemma reversionIssue_failStop (getProject : String → Except String Project)
    (getI : String → Except String Issue) (updI : UpdatePayload → Except String Unit)
    (project vid n : String) :
    failStop (reversionCallOK getProject getI updI)
      (reversionIssue getI updI project vid n) := by
  unfold reversionIssue
  dsimp only
  split
  · exact failStop_single _ (fun h => by simp [isOkE] at h)
  · rename_i issue hg
    have hok : reversionCallOK getProject getI updI (.getIssue (project ++ "-" ++ n)) = true := by
      show isOkE (getI (project ++ "-" ++ n)) = true
      rw [hg]
      rfl
    by_cases hn : necessaryLoop vid issue.fixVersions = true
    · rw [if_pos hn]
      split
      · rename_i v hu
        constructor
        · intro c hc
          rw [show List.dropLast [Call.getIssue (project ++ "-" ++ n),
              Call.updateIssue ⟨issue.key, none, some [vid]⟩]
            = [Call.getIssue (project ++ "-" ++ n)] from rfl] at hc
          rw [List.mem_singleton.mp hc]
          exact hok
        · intro _ c hc
          rcases List.mem_cons.mp hc with hc | hc
          · subst hc
            exact hok
          · rw [List.mem_singleton.mp hc]
            show isOkE (updI ⟨issue.key, none, some [vid]⟩) = true
            rw [hu]
            rfl
      · rename_i e hu
        constructor
        · intro c hc
          rw [show List.dropLast [Call.getIssue (project ++ "-" ++ n),
              Call.updateIssue ⟨issue.key, none, some [vid]⟩]
            = [Call.getIssue (project ++ "-" ++ n)] from rfl] at hc
          rw [List.mem_singleton.mp hc]
          exact hok
        · intro h
          exact absurd h (by simp [isOkE])
    · rw [if_neg hn]
      exact failStop_single _ (fun _ => hok)

lemma reversionLoop_failStop (getProject : String → Except String Project)
    (getI : String → Except String Issue) (updI : UpdatePayload → Except String Unit)
    (project vid : String) :
    ∀ ns : List String, failStop (reversionCallOK getProject getI updI)
      (reversionLoop getI updI project vid ns) := by
  intro ns
  induction ns with
  | nil => exact failStop_nil_trace _ _
  | cons n ns ih =>
    unfold reversionLoop
    have hfs := reversionIssue_failStop getProject getI updI project vid n
    split
    · rename_i e calls heq
      rw [heq] at hfs
      exact hfs
    · rename_i v calls heq
      rw [heq] at hfs
      show failStop _ ((reversionLoop getI updI project vid ns).1,
        calls ++ (reversionLoop getI updI project vid ns).2)
      exact failStop_prepend (hfs.2 rfl) ih (fun h => h)

lemma reversion_failStop (getProject : String → Except String Project)
    (getI : String → Except String Issue) (updI : UpdatePayload → Except String Unit)
    (projectKey versionSearch : String) (args : List String) :
    failStop (reversionCallOK getProject getI updI)
      (reversion getProject getI updI projectKey versionSearch args) := by
  unfold reversion
  have hfv := findVersion_failStop getProject getI updI projectKey versionSearch
  split
  · rename_i e cv heq
    rw [heq] at hfv
    exact hfv
  · rename_i v cv heq
    rw [heq] at hfv
    show failStop _ ((reversionLoop getI updI projectKey v.id args).1,
      cv ++ (reversionLoop getI updI projectKey v.id args).2)
    exact failStop_prepend (hfv.2 rfl)
      (reversionLoop_failStop getProject getI updI projectKey v.id args) (fun h => h)

lemma cisLoop_failStop (searchR : Except String (List Issue))
    (getT : String → Except String (List Transition))
    (doT : String → String → Except String Unit) (iid desired : String) :
    ∀ ts : List Transition, failStop (changeStatusCallOK searchR getT doT)
      (changeIssueStatusLoop doT iid desired ts) := by
  intro ts
  induction ts with
  | nil => exact failStop_nil_trace _ _
  | cons t ts ih =>
    unfold changeIssueStatusLoop
    by_cases hp : t.toName = desired
    · rw [if_pos hp]
      split
      · rename_i v hdo
        exact failStop_single _ (fun _ => by
          show isOkE (doT iid t.id) = true
          rw [hdo]
          rfl)
      · exact failStop_single _ (fun h => by simp [isOkE] at h)
    · rw [if_neg hp]
      exact ih

lemma changeIssueStatus_failStop (searchR : Except String (List Issue))
    (getT : String → Except String (List Transition))
    (doT : String → String → Except String Unit) (iid desired : String) :
    failStop (changeStatusCallOK searchR getT doT)
      (changeIssueStatus getT doT iid desired) := by
  unfold changeIssueStatus
  split
  · exact failStop_single _ (fun h => by simp [isOkE] at h)
  · rename_i ts hg
    dsimp only
    show failStop _ ((changeIssueStatusLoop doT iid desired ts).1,
      [Call.getTransitions iid] ++ (changeIssueStatusLoop doT iid desired ts).2)
    refine failStop_prepend ?_ (cisLoop_failStop searchR getT doT iid desired ts)
      (fun h => h)
    intro c hc
    rw [List.mem_singleton.mp hc]
    show isOkE (getT iid) = true
    rw [hg]
    rfl

lemma changeStatusLoop_failStop (searchR : Except String (List Issue))
    (getT : String → Except String (List Transition))
    (doT : String → String → Except String Unit) (desired : String) :
    ∀ is : List Issue, failStop (changeStatusCallOK searchR getT doT)
      (changeStatusLoop getT doT desired is) := by
  intro is
  induction is with
  | nil => exact failStop_nil_trace _ _
  | cons i is ih =>
    unfold changeStatusLoop
    have hfs := changeIssueStatus_failStop searchR getT doT i.id desired
    split
    · rename_i e calls heq
      rw [heq] at hfs
      exact hfs
    · rename_i v calls heq
      rw [heq] at hfs
      show failStop _ ((changeStatusLoop getT doT desired is).1,
        calls ++ (changeStatusLoop getT doT desired is).2)
      exact failStop_prepend (hfs.2 rfl) ih (fun h => h)

lemma changeStatus_failStop (searchR : Except String (List Issue))
    (getT : String → Except String (List Transition))
    (doT : String → String → Except String Unit) (desired : String) :
    failStop (changeStatusCallOK searchR getT doT)
      (changeStatus searchR getT doT desired) := by
  unfold changeStatus
  cases searchR with
  | error e => exact failStop_single _ (fun h => by simp [isOkE] at h)
  | ok issues =>
    show failStop _ ((changeStatusLoop getT doT desired issues).1,
      [Call.search] ++ (changeStatusLoop getT doT desired issues).2)
    refine failStop_prepend ?_
      (changeStatusLoop_failStop (.ok issues) getT doT desired issues) (fun h => h)
    intro c hc
    rw [List.mem_singleton.mp hc]
    rfl

lemma mirrorDownloads_failStop (searchR : Except String (List Issue))
    (getI : String → Except String Issue)
    (download : String → Except String Unit) (statMissing : String → Bool)
    (localWrite : String → Except String Unit) (dir : String) :
    ∀ urls : List (String × String), failStop (mirrorCallOK searchR getI download)
      (mirrorDownloads download statMissing localWrite dir urls) := by
  intro urls
  induction urls with
  | nil => exact failStop_nil_trace _ _
  | cons u rest ih =>
    obtain ⟨name, saveAs⟩ := u
    unfold mirrorDownloads
    by_cases hst : statMissing (dir ++ "/" ++ saveAs) = true
    · rw [if_pos hst]
      split
      · exact failStop_single _ (fun h => by simp [isOkE] at h)
      · rename_i v hdl
        split
        · exact failStop_single _ (fun h => by simp [isOkE] at h)
        · rename_i w hlw
          show failStop _ ((mirrorDownloads download statMissing localWrite dir rest).1,
            [Call.download name] ++ (mirrorDownloads download statMissing localWrite dir rest).2)
          refine failStop_prepend ?_ ih (fun h => h)
          intro c hc
          rw [List.mem_singleton.mp hc]
          show isOkE (download name) = true
          rw [hdl]
          rfl
    · rw [if_neg hst]
      exact ih

lemma mirrorIssue_failStop (searchR : Except String (List Issue))
    (getI : String → Except String Issue)
    (download : String → Except String Unit) (statMissing : String → Bool)
    (localWrite : String → Except String Unit) (mkdirOK : String → Bool)
    (inline : String → List String) (files : List String) (k : String) :
    failStop (mirrorCallOK searchR getI download)
      (mirrorIssue getI download statMissing localWrite mkdirOK inline files k) := by
  unfold mirrorIssue
  split
  · exact failStop_single _ (fun h => by simp [isOkE] at h)
  · rename_i issue hg
    have hok : mirrorCallOK searchR getI download (.getIssue k) = true := by
      show isOkE (getI k) = true
      rw [hg]
      rfl
    dsimp only
    split <;>
      (split
       · refine failStop_cons hok
           (mirrorDownloads_failStop searchR getI download statMissing localWrite _
             (findAllURLs inline issue)) ?_
         intro h
         rw [isOkE_map] at h
         exact h
       · exact failStop_single _ (fun _ => hok))

lemma mirrorLoop_failStop (searchR : Except String (List Issue))
    (getI : String → Except String Issue)
    (download : String → Except String Unit) (statMissing : String → Bool)
    (localWrite : String → Except String Unit) (mkdirOK : String → Bool)
    (inline : String → List String) (files : List String) :
    ∀ is : List Issue, failStop (mirrorCallOK searchR getI download)
      (mirrorLoop getI download statMissing localWrite mkdirOK inline files is) := by
  intro is
  induction is with
  | nil => exact failStop_nil_trace _ _
  | cons i is ih =>
    unfold mirrorLoop
    have hfs := mirrorIssue_failStop searchR getI download statMissing localWrite
      mkdirOK inline files i.key
    split
    · rename_i e calls heq
      rw [heq] at hfs
      exact hfs
    · rename_i calls heq
      rw [heq] at hfs
      exact ⟨hfs.1, fun _ => hfs.2 rfl⟩
    · rename_i calls heq
      rw [heq] at hfs
      show failStop _
        ((mirrorLoop getI download statMissing localWrite mkdirOK inline files is).1,
          calls ++ (mirrorLoop getI download statMissing localWrite mkdirOK inline files is).2)
      exact failStop_prepend (hfs.2 rfl) ih (fun h => h)

lemma mirror_failStop (searchR : Except String (List Issue))
    (getI : String → Except String Issue)
    (download : String → Except String Unit) (statMissing : String → Bool)
    (localWrite : String → Except String Unit)
    (mkdirBaseOK : Bool) (readDirR : Except String (List String))
    (mkdirOK : String → Bool) (inline : String → List String) :
    failStop (mirrorCallOK searchR getI download)
      (mirror searchR getI download statMissing localWrite mkdirBaseOK readDirR
        mkdirOK inline) := by
  unfold mirror
  split
  · exact failStop_single _ (fun h => by simp [isOkE] at h)
  · split
    · split
      · exact failStop_single _ (fun h => by simp [isOkE] at h)
      · refine failStop_cons ?_
          (mirrorLoop_failStop (.ok _) getI download statMissing localWrite
            mkdirOK inline _ _) (fun h => h)
        rfl
    · exact failStop_single _ (fun h => by simp [isOkE] at h)

/-- C7 as stated is false: the issue-link-type listing in `linkEpics`
(`types, _, _ := jc.IssueLinkType.GetList()`) is a remote API call whose
error the code deliberately discards.  With that call failing, the operation
neither stops nor returns an error: it proceeds to issue further remote
mutation calls (here a link addition) and returns success, violating the
fail-stop property at this concrete input. -/
theorem C7_counterexample :
    ¬ failStop
        (linkEpicsCallOK (.ok []) (.error "boom") (fun _ => .ok sampleIssue)
          (fun _ => .ok ()) (fun _ _ => .ok ()))
        (linkEpics (.ok []) (.error "boom") (fun _ => .ok sampleIssue)
          (fun _ => .ok ()) (fun _ _ => .ok ()) "FK" "1" ["2"]) := by decide

/-- C7 amended: every operation stops at the first failed remote call — at
most the last call of its trace can have failed, and any failure forces an
error result — except that `linkEpics` deliberately discards the error of its
issue-link-type listing (`GetList`) and continues, so that one call is
exempted from the property (and `findEpic`'s fatal exit on a failed epic
search is modelled as an error result). -/
theorem C7_fail_stop_amended :
    (∀ searchR getI updI updC,
        failStop (upkeepCallOK searchR getI updI updC) (upkeep searchR getI updI updC))
      ∧ (∀ getProject getI updI projectKey versionSearch args,
          failStop (reversionCallOK getProject getI updI)
            (reversion getProject getI updI projectKey versionSearch args))
      ∧ (∀ searchR getT doT desired,
          failStop (changeStatusCallOK searchR getT doT)
            (changeStatus searchR getT doT desired))
      ∧ (∀ searchR getI download statMissing localWrite mkdirBaseOK readDirR mkdirOK
            inline,
          failStop (mirrorCallOK searchR getI download)
            (mirror searchR getI download statMissing localWrite mkdirBaseOK readDirR
              mkdirOK inline))
      ∧ (∀ epicSearch getList getI delO addO project epicArg ns,
          failStop (linkEpicsCallOKAmended epicSearch getI delO addO)
            (linkEpics epicSearch getList getI delO addO project epicArg ns)) :=
  ⟨upkeep_failStop, reversion_failStop, changeStatus_failStop, mirror_failStop,
    linkEpics_failStop⟩

/-- Witness for C7's amended statement at the counterexample's input: with the
link-type listing exempted, the same run satisfies the fail-stop property. -/
theorem C7_fail_stop_amended_witness :
    failStop
      (linkEpicsCallOKAmended (.ok []) (fun _ => .ok sampleIssue)
        (fun _ => .ok ()) (fun _ _ => .ok ()))
      (linkEpics (.ok []) (.error "boom") (fun _ => .ok sampleIssue)
        (fun _ => .ok ()) (fun _ _ => .ok ()) "FK" "1" ["2"]) :=
  C7_fail_stop_amended.2.2.2.2 (.ok []) (.error "boom") (fun _ => .ok sampleIssue)
    (fun _ => .ok ()) (fun _ _ => .ok ()) "FK" "1" ["2"]

end JiraStatus
